import Mathlib

/-!
Verification development for the django-orchestra billing core
(`orchestra/contrib/bills/models.py`) and the PHP orchestration backend
(`orchestra/contrib/webapps/backends/php.py`).

Monetary quantities are modelled as rationals (`ℚ`); Python `round(x, 2)`
on `Decimal` values is banker's rounding (round half to even), embedded
below as `round2`.  Database querysets are modelled as explicit lists,
and Python exceptions as `Except String`.
-/

namespace Bills

/-- Embedding of Python `round(x, 2)` on exact decimals: scale by 100,
round half to even, unscale. -/
def round2 (x : ℚ) : ℚ :=
  let y : ℚ := 100 * x
  let f : ℤ := Int.fdiv y.num (y.den : ℤ)
  let frac : ℚ := y - (f : ℚ)
  let r : ℤ :=
    if frac < 1/2 then f
    else if 1/2 < frac then f + 1
    else if f % 2 = 0 then f else f + 1
  (r : ℚ) / 100

/-- The `Bill.TYPES` choices (plus the abstract `BILL` tag used by
`get_class_type`), from `Bill` in `bills/models.py`. -/
inductive BillType
  | BILL
  | INVOICE
  | AMENDMENTINVOICE
  | FEE
  | AMENDMENTFEE
  | PROFORMA
deriving DecidableEq, Repr

/-- `Bill.AMEND_MAP.values()`: the fixed set of amendment types. -/
def amendTypes : List BillType := [.AMENDMENTINVOICE, .AMENDMENTFEE]

/-- Transaction states, from the payment ledger contract used by
`Bill.payment_state` (the spec's fixed set; note the double-T spelling
used by the source). -/
inductive TxState
  | SECURED
  | WAITTING_PROCESSING
  | WAITTING_EXECUTION
  | WAITTING_CONFIRMATION
  | EXECUTED
  | REJECTED
deriving DecidableEq, Repr

/-- A payment-ledger entry attached to a bill. -/
structure Transaction where
  state : TxState
  amount : ℚ
deriving DecidableEq, Repr

/-- A bill line: `subtotal`, `tax` (percentage) and the totals of its
sublines, from `BillLine` / `BillSubline` in `bills/models.py`. -/
structure BillLine where
  subtotal : ℚ
  tax : ℚ
  sublines : List ℚ
deriving DecidableEq, Repr

/-- The fields of the bill referenced by `amend_of`, as read by
`Bill.clean`. -/
structure AmendOf where
  account : ℕ
  is_open : Bool
  type : BillType
deriving DecidableEq, Repr

/-- The `Bill` aggregate: the fields used by `payment_state`,
`compute_total`, `clean`, `save` and `close`.  `prefetched` embeds
whether `lines` sits in `_prefetched_objects_cache`. -/
structure Bill where
  number : List Char := []
  account : ℕ := 0
  amend_of : Option AmendOf := none
  type : BillType := .INVOICE
  is_open : Bool := true
  is_sent : Bool := false
  lines : List BillLine := []
  transactions : List Transaction := []
  prefetched : Bool := false
deriving DecidableEq, Repr

/-- Per-line base amount: `subtotal + Sum(Coalesce(sublines__total, 0))`. -/
def lineBase (l : BillLine) : ℚ := l.subtotal + l.sublines.foldl (· + ·) 0

/-- `BillLine.compute_total`: the line's subtotal plus its subline
totals, rounded to two decimals (all three source branches compute this
same sum). -/
def BillLine.compute_total (l : BillLine) : ℚ := round2 (lineBase l)

/-- `Bill.compute_total`: when lines are prefetched, sum the per-line
rounded totals times `1 + tax/100` and round; otherwise the database
aggregates the unrounded per-line bases times `1 + tax/100` and a single
rounding is applied to the sum. -/
def Bill.compute_total (b : Bill) : ℚ :=
  if b.prefetched then
    round2 (b.lines.foldl (fun acc l => acc + l.compute_total * (1 + l.tax / 100)) 0)
  else
    round2 (b.lines.foldl (fun acc l => acc + lineBase l * (1 + l.tax / 100)) 0)

end Bills

section C3Defs

open Bills

/-- The spec's total invariant, written from the claim:
`round(Σ_line (subtotal_line + Σ_subline total_subline) × (1 + tax_line/100), 2)`
with the rounding applied exactly once, at the outermost aggregation. -/
def specTotalC3 (b : Bill) : ℚ :=
  round2 ((b.lines.map (fun l => (l.subtotal + (l.sublines.foldl (· + ·) 0)) * (1 + l.tax / 100))).sum)

/-- The concrete bill of the claim: one line, subtotal 100, tax 21, no
sublines, lines not pre-fetched. -/
def exampleBillC3 : Bill :=
  { type := .INVOICE, is_open := false, lines := [⟨100, 21, []⟩] }

end C3Defs

namespace Bills

/-- The `Bill.PAYMENT_STATES` values reachable from `payment_state`. -/
inductive PaymentState
  | OPEN
  | CREATED
  | PROCESSED
  | AMENDED
  | PAID
  | INCOMPLETE
  | EXECUTED
  | BAD_DEBT
deriving DecidableEq, Repr

/-- The local accumulators of the `payment_state` ledger loop. -/
structure LedgerAcc where
  secured : ℚ
  pending : ℚ
  created : Bool
  processed : Bool
  executed : Bool
  rejected : Bool
deriving DecidableEq, Repr

/-- All accumulators start at zero / `False`. -/
def initAcc : LedgerAcc := ⟨0, 0, false, false, false, false⟩

/-- The `for transaction in self.transactions.all()` loop of
`Bill.payment_state`: one pass over the ledger, a `TypeError` on any
state outside the five handled ones. -/
def scanFrom (acc : LedgerAcc) : List Transaction → Except String LedgerAcc
  | [] => .ok acc
  | t :: ts =>
    match t.state with
    | .SECURED =>
        scanFrom { acc with secured := acc.secured + t.amount,
                            pending := acc.pending + t.amount } ts
    | .WAITTING_PROCESSING =>
        scanFrom { acc with pending := acc.pending + t.amount, created := true } ts
    | .WAITTING_EXECUTION =>
        scanFrom { acc with pending := acc.pending + t.amount, processed := true } ts
    | .EXECUTED =>
        scanFrom { acc with pending := acc.pending + t.amount, executed := true } ts
    | .REJECTED =>
        scanFrom { acc with rejected := true } ts
    | .WAITTING_CONFIRMATION => .error "Unknown state"

/-- `ongoing = bool(secured != 0 or created or processed or executed)`. -/
def ongoingOf (a : LedgerAcc) : Bool :=
  decide (a.secured ≠ 0) || a.created || a.processed || a.executed

/-- The shared fall-through of `payment_state`: the
`created` / `processed` / `executed` / `BAD_DEBT` cascade. -/
def fallbackState (a : LedgerAcc) : PaymentState :=
  if a.created then .CREATED
  else if a.processed then .PROCESSED
  else if a.executed then .EXECUTED
  else .BAD_DEBT

/-- `Bill.payment_state`, translated branch for branch from
`bills/models.py` lines 143-188. -/
def Bill.payment_state (b : Bill) : Except String PaymentState :=
  if b.is_open = true ∨ b.type = .PROFORMA then .ok .OPEN
  else
    match scanFrom initAcc b.transactions with
    | .error e => .error e
    | .ok a =>
      let ongoing := ongoingOf a
      let total := b.compute_total
      .ok (if 0 ≤ total then
             if total ≤ a.secured then .PAID
             else if ongoing = true ∧ a.pending < total then .INCOMPLETE
             else fallbackState a
           else
             if a.secured ≤ total then .PAID
             else if ongoing = true ∧ total < a.pending then .INCOMPLETE
             else fallbackState a)

end Bills

section C1Defs

open Bills

/-- The claim's decision table, written from the words of C1: an open or
pro-forma bill is OPEN; otherwise the flat table over
`total` / `secured` / `pending` / `ongoing` and the created, processed,
executed flags decides the state. -/
def paymentStateClaimC1 (b : Bill) : Except String PaymentState :=
  if b.is_open = true ∨ b.type = .PROFORMA then .ok .OPEN
  else
    match scanFrom initAcc b.transactions with
    | .error e => .error e
    | .ok a =>
      let ongoing := ongoingOf a
      let total := b.compute_total
      .ok (if 0 ≤ total ∧ total ≤ a.secured then .PAID
           else if 0 ≤ total ∧ ongoing = true ∧ a.pending < total then .INCOMPLETE
           else if total < 0 ∧ a.secured ≤ total then .PAID
           else if total < 0 ∧ ongoing = true ∧ total < a.pending then .INCOMPLETE
           else if a.created then .CREATED
           else if a.processed then .PROCESSED
           else if a.executed then .EXECUTED
           else .BAD_DEBT)

/-- Closed bill with total 121.00 and one SECURED transaction of 121.00. -/
def billPaidEx : Bill :=
  { type := .INVOICE, is_open := false, lines := [⟨100, 21, []⟩],
    transactions := [⟨.SECURED, 121⟩] }

/-- The same bill with only a WAITING_PROCESSING transaction of 121.00. -/
def billCreatedEx : Bill :=
  { billPaidEx with transactions := [⟨.WAITTING_PROCESSING, 121⟩] }

end C1Defs

section C6Defs

open Bills

/-- Sum of the amounts of SECURED transactions. -/
def sumSecured (ts : List Transaction) : ℚ :=
  ((ts.filter (fun t => t.state == TxState.SECURED)).map (·.amount)).sum

/-- The claim's `pending`: amounts of SECURED and WAITING_* transactions
only — transactions in any other state contribute to neither sum. -/
def claimPendingC6 (ts : List Transaction) : ℚ :=
  ((ts.filter (fun t =>
      t.state == TxState.SECURED || t.state == TxState.WAITTING_PROCESSING ||
      t.state == TxState.WAITTING_EXECUTION)).map (·.amount)).sum

/-- What the code actually accumulates into `pending`: SECURED,
WAITING_* and EXECUTED amounts. -/
def pendingSum (ts : List Transaction) : ℚ :=
  ((ts.filter (fun t =>
      t.state == TxState.SECURED || t.state == TxState.WAITTING_PROCESSING ||
      t.state == TxState.WAITTING_EXECUTION || t.state == TxState.EXECUTED)).map (·.amount)).sum

/-- A ledger holding a single EXECUTED transaction of amount 5. -/
def txExec5 : List Transaction := [⟨.EXECUTED, 5⟩]

end C6Defs

namespace Bills

/-- Error-dict key `amend_of` used by `Bill.clean`. -/
def kAmendOf : String := "amend_of"

/-- Error-dict key `account` used by `Bill.clean`. -/
def kAccount : String := "account"

/-- Message of the type-is-not-an-amendment check. -/
def msgTypeNotAmendment : String := "Type is not an amendment."

/-- Message of the account-mismatch check. -/
def msgAccountMismatch : String := "Amend of related account does not match bill account."

/-- Message of the related-invoice-open check. -/
def msgRelatedOpen : String := "Related invoice is in open state."

/-- Message of the related-invoice-is-an-amendment check. -/
def msgRelatedAmendment : String := "Related invoice is an amendment."

/-- Python dict assignment `errors[k] = v` on an insertion-ordered
association list: replace in place when the key exists, append when new. -/
def upsert (k v : String) : List (String × String) → List (String × String)
  | [] => [(k, v)]
  | (k0, v0) :: rest =>
      if k0 = k then (k0, v) :: rest else (k0, v0) :: upsert k v rest

/-- `Bill.clean` from `bills/models.py` lines 190-202: build the
`errors` dict across the four amendment checks; `some errors` embeds
`raise ValidationError(errors)`. -/
def Bill.clean (b : Bill) : Option (List (String × String)) :=
  match b.amend_of with
  | none => none
  | some a =>
    let e0 : List (String × String) := []
    let e1 := if b.type ∉ amendTypes then upsert kAmendOf msgTypeNotAmendment e0 else e0
    let e2 := if a.account ≠ b.account then upsert kAccount msgAccountMismatch e1 else e1
    let e3 := if a.is_open = true then upsert kAmendOf msgRelatedOpen e2 else e2
    let e4 := if a.type ∈ amendTypes then upsert kAmendOf msgRelatedAmendment e3 else e3
    if e4 = [] then none else some e4

end Bills

section C5Defs

open Bills

/-- The amended expectation for `clean` on an amendment bill: at most
one entry per field; the three `amend_of` checks share one key, the
last-checked violated condition winning (is-amendment over open over
type-not-amendment); the account mismatch sits under `account`. -/
def cleanExpected (b : Bill) (a : AmendOf) : Option (List (String × String)) :=
  let tBad := b.type ∉ amendTypes
  let aBad := a.account ≠ b.account
  let oBad := a.is_open = true
  let mBad := a.type ∈ amendTypes
  let amendMsg :=
    if mBad then msgRelatedAmendment
    else if oBad then msgRelatedOpen
    else msgTypeNotAmendment
  let entries :=
    (if tBad then [(kAmendOf, amendMsg)] else []) ++
    (if aBad then [(kAccount, msgAccountMismatch)] else []) ++
    (if ¬tBad ∧ (oBad ∨ mBad) then [(kAmendOf, amendMsg)] else [])
  if entries = [] then none else some entries

/-- The list of violated conditions of claim C5, each with the field the
claim attributes it to. -/
def violationsC5 (b : Bill) (a : AmendOf) : List (String × String) :=
  (if b.type ∉ amendTypes then [(kAmendOf, msgTypeNotAmendment)] else []) ++
  (if a.account ≠ b.account then [(kAccount, msgAccountMismatch)] else []) ++
  (if a.is_open = true then [(kAmendOf, msgRelatedOpen)] else []) ++
  (if a.type ∈ amendTypes then [(kAmendOf, msgRelatedAmendment)] else [])

/-- The target of the counterexample amendment link: same account, still
open, not itself an amendment. -/
def cexAmendC5 : AmendOf := ⟨1, true, .INVOICE⟩

/-- Counterexample bill for C5: a non-amendment type (INVOICE) whose
`amend_of` is still open — two violated conditions, both attributed to
`amend_of`. -/
def cexBillC5 : Bill :=
  { type := .INVOICE, account := 1, amend_of := some cexAmendC5 }

end C5Defs

namespace Php

/-- A managed PHP webapp as `PHPBackend` reads it: identity, owning
account, the selected PHP version (stored in the webapp's data and
returned by `type_instance.get_php_version()`), the execution-mode
flags of its type instance, and whether `get_fcgid_cmd_options`
renders a non-empty options block. -/
structure WebApp where
  id : ℕ
  account : ℕ
  php_version : String
  is_fpm : Bool
  is_fcgid : Bool
  has_cmd_options : Bool
deriving DecidableEq, Repr

/-- The settings surface consumed by `PHPBackend`:
`WEBAPPS_MERGE_PHP_WEBAPPS`, `WEBAPPS_PHP_VERSIONS` and the three path
templates (`WEBAPPS_PHPFPM_POOL_PATH`, `WEBAPPS_FCGID_WRAPPER_PATH`,
`WEBAPPS_FCGID_CMD_OPTIONS_PATH`) applied to a version's context. -/
structure Settings where
  merge : Bool
  php_versions : List String
  fpmPoolPath : String → String
  fcgidWrapperPath : String → String
  fcgidCmdOptionsPath : String → String

/-- One accumulated script operation, tagged by what the appended shell
block does so that script contents can be inspected. -/
inductive Stmt
  | comment (text : String)
  | createDir
  | rmDir
  | mkWrapperDir (php_version : String)
  | writeFpm (path : String)
  | writeFcgid (path : String)
  | writeCmdOptions (path : String)
  | rmFile (path : String)
  | underConstruction
deriving DecidableEq, Repr

/-- `PHPBackend.has_sibilings`: another webapp of the same account whose
stored data selects the given PHP version. -/
def has_sibilings (db : List WebApp) (w : WebApp) (php_version : String) : Bool :=
  db.any (fun x =>
    x.account == w.account && x.php_version == php_version && x.id != w.id)

/-- `PHPBackend.all_versions_to_delete`: every configured PHP version,
skipping the active one when `preserve` is set, and skipping versions
with sibling webapps when the merge setting is enabled. -/
def all_versions_to_delete (s : Settings) (db : List WebApp) (w : WebApp)
    (preserve : Bool) : List String :=
  s.php_versions.filter (fun v =>
    !(preserve && v == w.php_version) && (!s.merge || !has_sibilings db w v))

/-- `PHPBackend.delete_fpm`: remove the FPM pool of every enumerated
version. -/
def delete_fpm (s : Settings) (db : List WebApp) (w : WebApp)
    (preserve : Bool) : List Stmt :=
  (all_versions_to_delete s db w preserve).map (fun v => .rmFile (s.fpmPoolPath v))

/-- `PHPBackend.delete_fcgid`: remove the FCGID wrapper and cmd-options
file of every enumerated version. -/
def delete_fcgid (s : Settings) (db : List WebApp) (w : WebApp)
    (preserve : Bool) : List Stmt :=
  (all_versions_to_delete s db w preserve).flatMap (fun v =>
    [.rmFile (s.fcgidWrapperPath v), .rmFile (s.fcgidCmdOptionsPath v)])

/-- `PHPBackend.save_fpm`: the diff-and-write block for the active
version's FPM pool. -/
def save_fpm (s : Settings) (w : WebApp) : List Stmt :=
  [.writeFpm (s.fpmPoolPath w.php_version)]

/-- `PHPBackend.save_fcgid`: wrapper dir creation, the diff-and-write
wrapper block, then either the cmd-options write or its removal when
the rendered options are empty. -/
def save_fcgid (s : Settings) (w : WebApp) : List Stmt :=
  [.mkWrapperDir w.php_version, .writeFcgid (s.fcgidWrapperPath w.php_version)] ++
  (if w.has_cmd_options then [.writeCmdOptions (s.fcgidCmdOptionsPath w.php_version)]
   else [.rmFile (s.fcgidCmdOptionsPath w.php_version)])

/-- `PHPBackend.save`: webapp dir creation (`create_webapp_dir`,
modelled from the spec's §4.3 contract since the `WebAppServiceMixin`
body is not part of the sources), the type-specific config write, a
`TypeError` on an unknown execution type, then the stale-version
cleanup with the active version preserved. -/
def save (s : Settings) (db : List WebApp) (w : WebApp) :
    Except String (List Stmt) :=
  if w.is_fpm then
    .ok ([.createDir] ++ save_fpm s w ++
         [.comment ("Clean non-used PHP FCGID wrappers and FPM pools")] ++
         delete_fcgid s db w true ++ delete_fpm s db w true ++
         [.underConstruction])
  else if w.is_fcgid then
    .ok ([.createDir] ++ save_fcgid s w ++
         [.comment ("Clean non-used PHP FCGID wrappers and FPM pools")] ++
         delete_fcgid s db w true ++ delete_fpm s db w true ++
         [.underConstruction])
  else .error "Unknown PHP execution type"

/-- `PHPBackend.delete`: the type-specific cleanup without preservation,
then the webapp directory removal (`delete_webapp_dir`, modelled from
the spec's §4.3 contract since the `WebAppServiceMixin` body is not part
of the sources).  An unknown execution type falls through both `if`
branches without raising. -/
def delete (s : Settings) (db : List WebApp) (w : WebApp) : List Stmt :=
  (if w.is_fpm then delete_fpm s db w false
   else if w.is_fcgid then delete_fcgid s db w false
   else []) ++ [.rmDir]

/-- Distinctness of the generated configuration paths over the
configured versions: each template is injective on the version list and
the three families are pairwise disjoint. -/
def PathsOk (s : Settings) : Prop :=
  (∀ v ∈ s.php_versions, ∀ u ∈ s.php_versions,
      (s.fpmPoolPath v = s.fpmPoolPath u → v = u) ∧
      (s.fcgidWrapperPath v = s.fcgidWrapperPath u → v = u) ∧
      (s.fcgidCmdOptionsPath v = s.fcgidCmdOptionsPath u → v = u)) ∧
  (∀ v ∈ s.php_versions, ∀ u ∈ s.php_versions,
      s.fpmPoolPath v ≠ s.fcgidWrapperPath u ∧
      s.fpmPoolPath v ≠ s.fcgidCmdOptionsPath u ∧
      s.fcgidWrapperPath v ≠ s.fcgidCmdOptionsPath u)

end Php

section PhpExamples

/-- Concrete settings with merging enabled: two configured versions and
the stock path templates. -/
def phpS0 : Php.Settings :=
  { merge := true,
    php_versions := ["5.6", "7.0"],
    fpmPoolPath := fun v => "/etc/php/" ++ v ++ "/fpm/pool.d/acc.conf",
    fcgidWrapperPath := fun v => "/home/acc/webapps/php" ++ v ++ "/wrapper",
    fcgidCmdOptionsPath := fun v => "/etc/apache2/fcgid/acc-" ++ v ++ ".conf" }

/-- The same settings with the merge toggle disabled. -/
def phpS0noMerge : Php.Settings := { phpS0 with merge := false }

/-- An FPM webapp of account 7 running PHP 5.6. -/
def phpW0 : Php.WebApp :=
  { id := 1, account := 7, php_version := "5.6",
    is_fpm := true, is_fcgid := false, has_cmd_options := false }

/-- A sibling webapp of the same account running PHP 7.0. -/
def phpW1 : Php.WebApp :=
  { id := 2, account := 7, php_version := "7.0",
    is_fpm := true, is_fcgid := false, has_cmd_options := false }

/-- A sibling webapp of the same account also running PHP 5.6. -/
def phpW2 : Php.WebApp :=
  { id := 3, account := 7, php_version := "5.6",
    is_fpm := true, is_fcgid := false, has_cmd_options := false }

/-- Database containing the webapp and its PHP 7.0 sibling. -/
def phpDb0 : List Php.WebApp := [phpW0, phpW1]

/-- Database containing two webapps sharing PHP 5.6. -/
def phpDb1 : List Php.WebApp := [phpW0, phpW2]

/-- A webapp whose PHP execution type is neither FPM nor FCGID. -/
def phpWeird : Php.WebApp :=
  { id := 4, account := 7, php_version := "5.6",
    is_fpm := false, is_fcgid := false, has_cmd_options := false }

end PhpExamples

namespace Coord

/-- One line of the shared marker `/dev/shm/restart.apache2`: a backend
name, optionally flagged ` RESTART`. -/
structure Entry where
  name : String
  restart : Bool
deriving DecidableEq, Repr

/-- A batch participant: its `$backend` name and whether its body set
`UPDATED_APACHE=1` (flagged a change requiring the shared action). -/
structure Participant where
  name : String
  updated : Bool
deriving DecidableEq, Repr

/-- `prepare` appends the participant's plain registration line
(`echo "$backend" >> /dev/shm/restart.apache2`). -/
def plainEntry (p : Participant) : Entry := ⟨p.name, false⟩

/-- `state="$(grep -v "$backend" ...)"`: the marker lines that are not
the committing backend's own entry.  Participant names are distinct
whole lines, so grep's line filtering coincides with name inequality. -/
def othersOf (n : String) (m : List Entry) : List Entry :=
  m.filter (fun e => e.name ≠ n)

/-- What one `commit` execution did: the marker it left behind (`none`
when the participant was last and deleted it), whether the shared
action (the Apache reload) fired, and the `$state` lines it observed. -/
structure StepResult where
  marker : Option (List Entry)
  fired : Bool
  others : List Entry
deriving DecidableEq, Repr

/-- One `PHPBackend.commit` execution over the locked marker
(`php.py` lines 159-186): the participant is last exactly when every
remaining line is a ` RESTART` request (in particular when none
remain); it then performs the shared action if it flagged a change
itself or the remaining state ends in `RESTART` (which, under the
is-last guard, holds whenever any line remains), and deletes the
marker.  Otherwise it writes back the other lines plus its own
` RESTART` request when it flagged a change. -/
def commitStep (p : Participant) (m : List Entry) : StepResult :=
  let os := othersOf p.name m
  if os.all (·.restart) then
    ⟨none, p.updated || !os.isEmpty, os⟩
  else
    ⟨some (os ++ if p.updated then [⟨p.name, true⟩] else []), false, os⟩

/-- The commit phase of a batch: the participants commit in list order
under the marker lock; a missing marker is the fatal double `mv`
failure — the commit aborts and no action fires. -/
def runCommits : List Participant → Option (List Entry) → List StepResult
  | [], _ => []
  | _ :: ps, none => ⟨none, false, []⟩ :: runCommits ps none
  | p :: ps, some m =>
    let r := commitStep p m
    r :: runCommits ps r.marker

/-- The claim's "last" guard, written from its words: after removing
its own entry, no entries remain for other backends (which subsumes
"none of the remaining entries request a deferred restart"). -/
def claimGuardC2 (r : StepResult) : Prop := r.others = []

/-- Restart-flagged marker entries all come from participants that
flagged a change. -/
def restartFromUpdated (ps : List Participant) (m : List Entry) : Prop :=
  ∀ e ∈ m, e.restart = true → ∃ p, p ∈ ps ∧ p.name = e.name ∧ p.updated = true

end Coord

namespace Numbering

/-- Bill numbers are database strings; they are modelled as their
character lists. -/
abbrev Str := List Char

/-- Numeric value of a digit character. -/
def charVal (c : Char) : ℕ := c.toNat - 48

/-- Decimal digit (codepoints 48-57). -/
def isDigitCh (c : Char) : Bool := decide (48 ≤ c.toNat) && decide (c.toNat ≤ 57)

/-- The regex class `[1-9]` (codepoints 49-57). -/
def isNonzeroDigit (c : Char) : Bool := decide (49 ≤ c.toNat) && decide (c.toNat ≤ 57)

/-- Every character is a decimal digit. -/
def allDigits (s : Str) : Bool := s.all isDigitCh

/-- Codepoint-wise lexicographic comparison: the order in which the
database sorts the `number` column for `order_by('-number')`. -/
def strLt : Str → Str → Bool
  | [], [] => false
  | [], _ :: _ => true
  | _ :: _, [] => false
  | a :: as, b :: bs =>
    if a.toNat < b.toNat then true
    else if b.toNat < a.toNat then false
    else strLt as bs

/-- `order_by('-number') ... first()`: the lexicographic maximum. -/
def lexMax : List Str → Option Str
  | [] => none
  | s :: rest => some (rest.foldl (fun acc t => if strLt acc t then t else acc) s)

/-- The queryset filter `number__regex=r'^<prefix>[1-9]+'`. -/
def matchesRx (pfx s : Str) : Bool :=
  pfx.isPrefixOf s &&
    (match s.drop pfx.length with
     | c :: _ => isNonzeroDigit c
     | [] => false)

/-- Numeric value of a digit string, most significant digit first. -/
def strVal (s : Str) : ℕ := s.foldl (fun a c => a * 10 + charVal c) 0

/-- Python `int(...)` on a trimmed string: fails on an empty or
non-digit suffix (`ValueError`). -/
def digitsToNat? (s : Str) : Option ℕ :=
  if s ≠ [] ∧ allDigits s = true then some (strVal s) else none

/-- `int(last_number[len(prefix)+4:])`: skip the prefix and the four
year digits, parse the rest. -/
def parseSeq (pfx : Str) (s : Str) : Option ℕ :=
  digitsToNat? (s.drop (pfx.length + 4))

/-- Decimal digits of `n`, most significant first, with explicit fuel
so the kernel can evaluate it. -/
def natDigitsAux : ℕ → ℕ → List ℕ
  | 0, _ => []
  | fuel + 1, n => if n = 0 then [] else natDigitsAux fuel (n / 10) ++ [n % 10]

/-- Decimal digits of `n`, most significant first. -/
def natDigits (n : ℕ) : List ℕ := natDigitsAux n n

/-- The character of one decimal digit. -/
def digitCh (d : ℕ) : Char := Char.ofNat (48 + d)

/-- Python `str(n)` for a natural number. -/
def natRepr (n : ℕ) : Str := if n = 0 then ['0'] else (natDigits n).map digitCh

/-- `zeros = (number_length - len(str(number))) * '0'; zeros + str(number)`. -/
def padded (len : ℕ) (s : Str) : Str := List.replicate (len - s.length) '0' ++ s

/-- The ambient values read by `get_number`: the current year as printed
by `timezone.now().strftime("%Y")` and `settings.BILLS_NUMBER_LENGTH`. -/
structure Ctx where
  year : Str
  numberLength : ℕ

/-- `Bill.get_number` from `bills/models.py` lines 220-240: refuse BILL
instances, pick the (possibly `O`-prefixed) prefix, scan the existing
numbers matching `^prefix[1-9]+`, take the lexicographic maximum, parse
its sequence past the prefix and year, increment, zero-pad and glue
`prefix + year + number`.  The settings prefix for the bill type is
passed in as `pfxBase` (`bills/settings.py` is not part of the
sources; modelled from the spec's prefix+year+sequence description). -/
def get_number (ctx : Ctx) (pfxBase : Str) (bt : Bills.BillType)
    (is_open : Bool) (existing : List Str) : Except String Str :=
  if bt = .BILL then .error "This method can not be used on BILL instances"
  else
    let pfx := if is_open then 'O' :: pfxBase else pfxBase
    let matching := existing.filter (matchesRx pfx)
    match lexMax matching with
    | none => .ok (pfx ++ ctx.year ++ padded ctx.numberLength (natRepr 1))
    | some m =>
      match parseSeq pfx m with
      | none => .error "invalid literal for int"
      | some n => .ok (pfx ++ ctx.year ++ padded ctx.numberLength (natRepr (n + 1)))

/-- `Bill.save` (numbering part, `bills/models.py` lines 315-320): a
blank number is assigned from `get_number` — also for open bills —
before persisting; a non-blank number is kept unchanged. -/
def save (ctx : Ctx) (pfxOf : Bills.BillType → Str) (existing : List Str)
    (b : Bills.Bill) : Except String Bills.Bill :=
  if b.number = [] then
    match get_number ctx (pfxOf b.type) b.type b.is_open existing with
    | .error e => .error e
    | .ok num => .ok { b with number := num }
  else .ok b

/-- `Bill.close` (numbering part, `bills/models.py` lines 248-265):
refuse an already-closed bill, clear the open and sent flags,
unconditionally re-assign the number with the closed (no `'O'`) prefix,
then persist through `save`.  The settlement-transaction creation, due
date and HTML freezing of `close` do not touch the number and are
outside this model. -/
def close (ctx : Ctx) (pfxOf : Bills.BillType → Str) (existing : List Str)
    (b : Bills.Bill) : Except String Bills.Bill :=
  if b.is_open = false then .error "Bill not in Open state."
  else
    let b1 : Bills.Bill := { b with is_open := false, is_sent := false }
    match get_number ctx (pfxOf b1.type) b1.type b1.is_open existing with
    | .error e => .error e
    | .ok num => save ctx pfxOf existing { b1 with number := num }

/-- The sequence value `get_number` will use for a given prefix: 1 when
no number matches, otherwise the parsed maximum plus one (`none` when
the parse of the maximum fails). -/
def expectedSeq (pfx : Str) (existing : List Str) : Option ℕ :=
  match lexMax (existing.filter (matchesRx pfx)) with
  | none => some 1
  | some m => (parseSeq pfx m).map (· + 1)

/-- Well-formedness of the stored numbers: every number matching the
prefix regex is the prefix, four year digits no later than the current
year, and a zero-padded all-digit sequence of the configured width. -/
def WFExisting (ctx : Ctx) (pfx : Str) (existing : List Str) : Prop :=
  ∀ s ∈ existing, matchesRx pfx s = true →
    ∃ y d, s = pfx ++ y ++ d ∧ y.length = 4 ∧ allDigits y = true ∧
      strLt ctx.year y = false ∧ d.length = ctx.numberLength ∧
      allDigits d = true ∧ d ≠ []

/-- Well-formedness of the current year string: four digits, the first
nonzero. -/
def WFYear (ctx : Ctx) : Prop :=
  ctx.year.length = 4 ∧ allDigits ctx.year = true ∧
    (∃ c cs, ctx.year = c :: cs ∧ isNonzeroDigit c = true)

end Numbering

section C4Examples

/-- A freshly created, never-saved open invoice. -/
def freshBillC4 : Bills.Bill := { type := .INVOICE }

/-- Concrete number-prefix settings for each bill type. -/
def pfxOf0 : Bills.BillType → Numbering.Str
  | .BILL => ['B']
  | .INVOICE => ['I']
  | .AMENDMENTINVOICE => ['A']
  | .FEE => ['F']
  | .AMENDMENTFEE => ['G']
  | .PROFORMA => ['P']

/-- Concrete numbering context: year 2026, six-digit sequences. -/
def ctx0 : Numbering.Ctx := ⟨['2', '0', '2', '6'], 6⟩

/-- One stored invoice number, `I2026000001`. -/
def exC4 : List Numbering.Str :=
  [['I', '2', '0', '2', '6', '0', '0', '0', '0', '0', '1']]

end C4Examples

section C3Lemmas

open Bills

lemma foldl_add_shift (f : Bills.BillLine → ℚ) (ls : List Bills.BillLine) :
    ∀ a : ℚ, ls.foldl (fun acc l => acc + f l) a = a + (ls.map f).sum := by
  induction ls with
  | nil => intro a; simp
  | cons x xs ih =>
    intro a
    simp only [List.foldl_cons, List.map_cons, List.sum_cons]
    rw [ih]
    ring

end C3Lemmas

/-- Claim C3: for every bill whose lines are not pre-fetched,
`compute_total` equals the spec formula — one rounding, applied at the
outermost aggregation — and the one-line example (subtotal 100, tax 21,
no sublines) totals 121.00. -/
theorem C3_compute_total_single_rounding (b : Bills.Bill)
    (h : b.prefetched = false) :
    b.compute_total = specTotalC3 b ∧ exampleBillC3.compute_total = 121 := by
  constructor
  · unfold Bills.Bill.compute_total specTotalC3
    rw [h]
    simp only [Bool.false_eq_true, if_false]
    rw [foldl_add_shift (fun l => Bills.lineBase l * (1 + l.tax / 100))]
    simp [Bills.lineBase]
  · show Bills.Bill.compute_total exampleBillC3 = 121
    norm_num [Bills.Bill.compute_total, exampleBillC3, Bills.lineBase, Bills.round2]

/-- Witness for C3 at the concrete example bill. -/
theorem C3_compute_total_single_rounding_witness :
    exampleBillC3.compute_total = specTotalC3 exampleBillC3 ∧
      exampleBillC3.compute_total = 121 :=
  ⟨(C3_compute_total_single_rounding exampleBillC3 rfl).1,
   (C3_compute_total_single_rounding exampleBillC3 rfl).2⟩

section C1Lemmas

open Bills

lemma table_eq (a : Bills.LedgerAcc) (total : ℚ) :
    (if 0 ≤ total then
       if total ≤ a.secured then Bills.PaymentState.PAID
       else if ongoingOf a = true ∧ a.pending < total then .INCOMPLETE
       else fallbackState a
     else
       if a.secured ≤ total then .PAID
       else if ongoingOf a = true ∧ total < a.pending then .INCOMPLETE
       else fallbackState a) =
    (if 0 ≤ total ∧ total ≤ a.secured then Bills.PaymentState.PAID
     else if 0 ≤ total ∧ ongoingOf a = true ∧ a.pending < total then .INCOMPLETE
     else if total < 0 ∧ a.secured ≤ total then .PAID
     else if total < 0 ∧ ongoingOf a = true ∧ total < a.pending then .INCOMPLETE
     else if a.created then .CREATED
     else if a.processed then .PROCESSED
     else if a.executed then .EXECUTED
     else .BAD_DEBT) := by
  by_cases h0 : 0 ≤ total
  · have h0' : ¬ total < 0 := not_lt.mpr h0
    by_cases h1 : total ≤ a.secured
    · simp [h0, h1]
    · by_cases h2 : ongoingOf a = true ∧ a.pending < total
      · simp [h0, h1, h2, h0']
      · simp [h0, h1, h2, h0', fallbackState]
  · have h0' : total < 0 := not_le.mp h0
    by_cases h1 : a.secured ≤ total
    · simp [h0, h1, h0']
    · by_cases h2 : ongoingOf a = true ∧ total < a.pending
      · simp [h0, h1, h2, h0']
      · simp [h0, h1, h2, h0', fallbackState]

lemma payment_state_eq_claim (b : Bills.Bill) :
    b.payment_state = paymentStateClaimC1 b := by
  unfold Bills.Bill.payment_state paymentStateClaimC1
  by_cases h : b.is_open = true ∨ b.type = .PROFORMA
  · simp [h]
  · simp only [h, if_false]
    cases hscan : scanFrom initAcc b.transactions with
    | error e => rfl
    | ok a => exact congrArg Except.ok (table_eq a b.compute_total)

lemma payment_state_open (b : Bills.Bill)
    (h : b.is_open = true ∨ b.type = .PROFORMA) :
    b.payment_state = .ok .OPEN := by
  unfold Bills.Bill.payment_state
  simp [h]

lemma billPaidEx_paid : billPaidEx.payment_state = .ok .PAID := by
  norm_num [Bills.Bill.payment_state, billPaidEx, scanFrom, initAcc, ongoingOf,
    fallbackState, Bills.Bill.compute_total, Bills.round2, Bills.lineBase]
  decide

lemma billCreatedEx_created : billCreatedEx.payment_state = .ok .CREATED := by
  norm_num [Bills.Bill.payment_state, billCreatedEx, billPaidEx, scanFrom, initAcc,
    ongoingOf, fallbackState, Bills.Bill.compute_total, Bills.round2, Bills.lineBase]
  decide

end C1Lemmas

/-- Claim C1: for every closed non-pro-forma bill, `payment_state` is
exactly the claim's decision table over the transaction ledger; an open
or pro-forma bill always reports OPEN; the 121.00 bill with one SECURED
transaction of 121.00 is PAID, and with only a WAITING_PROCESSING
transaction of 121.00 it is CREATED. -/
theorem C1_payment_state_decision_table (b : Bills.Bill) :
    b.payment_state = paymentStateClaimC1 b ∧
    ((b.is_open = true ∨ b.type = .PROFORMA) → b.payment_state = .ok .OPEN) ∧
    billPaidEx.payment_state = .ok .PAID ∧
    billCreatedEx.payment_state = .ok .CREATED :=
  ⟨payment_state_eq_claim b, payment_state_open b, billPaidEx_paid, billCreatedEx_created⟩

/-- Witness for C1: the OPEN rule discharged at a concrete open bill. -/
theorem C1_payment_state_decision_table_witness :
    ({ billPaidEx with is_open := true } : Bills.Bill).payment_state =
      .ok .OPEN :=
  (C1_payment_state_decision_table { billPaidEx with is_open := true }).2.1 (Or.inl rfl)

section C6Lemmas

open Bills

lemma scanFrom_ok_sums (ts : List Bills.Transaction) :
    ∀ acc a, scanFrom acc ts = .ok a →
      a.secured = acc.secured + sumSecured ts ∧
      a.pending = acc.pending + pendingSum ts := by
  induction ts with
  | nil =>
    intro acc a h
    simp only [scanFrom] at h
    cases h
    simp [sumSecured, pendingSum]
  | cons t ts ih =>
    obtain ⟨st, amt⟩ := t
    intro acc a h
    cases st
    case SECURED =>
      have hrec := ih _ a h
      simp [sumSecured, pendingSum] at hrec ⊢
      constructor <;> simp [hrec.1, hrec.2] <;> ring
    case WAITTING_PROCESSING =>
      have hrec := ih _ a h
      simp [sumSecured, pendingSum] at hrec ⊢
      constructor <;> simp [hrec.1, hrec.2] <;> ring
    case WAITTING_EXECUTION =>
      have hrec := ih _ a h
      simp [sumSecured, pendingSum] at hrec ⊢
      constructor <;> simp [hrec.1, hrec.2] <;> ring
    case EXECUTED =>
      have hrec := ih _ a h
      simp [sumSecured, pendingSum] at hrec ⊢
      constructor <;> simp [hrec.1, hrec.2] <;> ring
    case REJECTED =>
      have hrec := ih _ a h
      simp [sumSecured, pendingSum] at hrec ⊢
      exact hrec
    case WAITTING_CONFIRMATION =>
      exact absurd h (by simp [scanFrom])

lemma scanFrom_error_of_unknown (ts : List Bills.Transaction) :
    ∀ acc, (∃ t ∈ ts, t.state = .WAITTING_CONFIRMATION) →
      ∃ e, scanFrom acc ts = .error e := by
  induction ts with
  | nil =>
    rintro acc ⟨t, ht, -⟩
    cases ht
  | cons t ts ih =>
    rintro acc ⟨u, hu, hstate⟩
    obtain ⟨st, amt⟩ := t
    rcases List.mem_cons.mp hu with h | h
    · subst h
      simp only at hstate
      rw [hstate]
      exact ⟨_, rfl⟩
    · cases st
      case WAITTING_CONFIRMATION => exact ⟨_, rfl⟩
      all_goals exact ih _ ⟨u, h, hstate⟩

end C6Lemmas

/-- Counterexample to C6: a ledger with one EXECUTED transaction of
amount 5.  The claim predicts `pending = 0` (EXECUTED is neither SECURED
nor WAITING_*), but the loop adds EXECUTED amounts to `pending`:
the accumulator ends with `pending = 5`. -/
theorem C6_counterexample_executed_adds_to_pending :
    Bills.scanFrom Bills.initAcc txExec5 =
      .ok ⟨0, 5, false, false, true, false⟩ ∧
    claimPendingC6 txExec5 = 0 ∧ (5 : ℚ) ≠ 0 := by
  refine ⟨?_, ?_, by norm_num⟩
  · simp [txExec5, Bills.scanFrom, Bills.initAcc]
  · simp [claimPendingC6, txExec5]

/-- Claim C6 as amended: `secured` is the sum of SECURED amounts, while
`pending` is the sum of SECURED, WAITING_* **and EXECUTED** amounts;
a transaction in the unknown WAITING_CONFIRMATION state makes the scan
raise a fatal error instead of being silently ignored. -/
theorem C6_ledger_accumulators (ts : List Bills.Transaction) :
    (∀ a, Bills.scanFrom Bills.initAcc ts = .ok a →
        a.secured = sumSecured ts ∧ a.pending = pendingSum ts) ∧
    ((∃ t ∈ ts, t.state = .WAITTING_CONFIRMATION) →
        ∃ e, Bills.scanFrom Bills.initAcc ts = .error e) := by
  constructor
  · intro a h
    have := scanFrom_ok_sums ts Bills.initAcc a h
    simpa [Bills.initAcc] using this
  · exact scanFrom_error_of_unknown ts Bills.initAcc

/-- Witness for C6 at concrete ledgers: a single SECURED transaction of
amount 3, and a ledger containing an unknown-state transaction. -/
theorem C6_ledger_accumulators_witness :
    (Bills.LedgerAcc.secured ⟨3, 3, false, false, false, false⟩ =
        sumSecured [⟨.SECURED, 3⟩] ∧
     Bills.LedgerAcc.pending ⟨3, 3, false, false, false, false⟩ =
        pendingSum [⟨.SECURED, 3⟩]) ∧
    ∃ e, Bills.scanFrom Bills.initAcc [⟨.WAITTING_CONFIRMATION, 1⟩] = .error e :=
  ⟨(C6_ledger_accumulators [⟨.SECURED, 3⟩]).1 ⟨3, 3, false, false, false, false⟩
      (by simp [Bills.scanFrom, Bills.initAcc]),
   (C6_ledger_accumulators [⟨.WAITTING_CONFIRMATION, 1⟩]).2
      ⟨⟨.WAITTING_CONFIRMATION, 1⟩, by simp, rfl⟩⟩

section C5Lemmas

open Bills

lemma clean_eq_expected (b : Bills.Bill) (a : Bills.AmendOf)
    (h : b.amend_of = some a) :
    b.clean = cleanExpected b a := by
  unfold Bills.Bill.clean cleanExpected
  rw [h]
  by_cases t : b.type ∈ amendTypes <;>
    by_cases ac : a.account = b.account <;>
      by_cases o : a.is_open = true <;>
        by_cases m : a.type ∈ amendTypes <;>
          simp [t, ac, o, m, upsert, kAmendOf, kAccount]

end C5Lemmas

/-- Counterexample to C5: an INVOICE-typed amendment whose `amend_of`
is still open violates two conditions (type not an amendment, related
bill open), both attributed to `amend_of`; `clean` reports only the
open-state message — the type violation is silently overwritten. -/
theorem C5_counterexample_same_field_overwrite :
    Bills.Bill.clean cexBillC5 = some [(Bills.kAmendOf, Bills.msgRelatedOpen)] ∧
    violationsC5 cexBillC5 cexAmendC5 =
      [(Bills.kAmendOf, Bills.msgTypeNotAmendment),
       (Bills.kAmendOf, Bills.msgRelatedOpen)] ∧
    (Bills.kAmendOf, Bills.msgTypeNotAmendment) ∉
      [(Bills.kAmendOf, Bills.msgRelatedOpen)] := by
  refine ⟨?_, ?_, ?_⟩
  · simp [Bills.Bill.clean, cexBillC5, cexAmendC5, Bills.amendTypes, Bills.upsert,
      Bills.kAmendOf, Bills.kAccount]
  · simp [violationsC5, cexBillC5, cexAmendC5, Bills.amendTypes]
  · decide

/-- Claim C5 as amended: `clean` validates all four conditions and
raises one structured error, but the three `amend_of` conditions share
a single dict key, so only the last-checked violated `amend_of`
condition is reported (is-amendment over open over type-not-amendment);
the account mismatch is reported under `account`. -/
theorem C5_clean_validation (b : Bills.Bill) (a : Bills.AmendOf)
    (h : b.amend_of = some a) :
    b.clean = cleanExpected b a :=
  clean_eq_expected b a h

/-- Witness for C5 at the concrete counterexample bill. -/
theorem C5_clean_validation_witness :
    Bills.Bill.clean cexBillC5 = cleanExpected cexBillC5 cexAmendC5 :=
  C5_clean_validation cexBillC5 cexAmendC5 rfl

section PhpLemmas

open Php

lemma mem_all_versions_to_delete (s : Php.Settings) (db : List Php.WebApp)
    (w : Php.WebApp) (preserve : Bool) (v : String) :
    v ∈ Php.all_versions_to_delete s db w preserve ↔
      v ∈ s.php_versions ∧ ¬(preserve = true ∧ v = w.php_version) ∧
        (s.merge = false ∨ Php.has_sibilings db w v = false) := by
  simp only [Php.all_versions_to_delete, List.mem_filter, Bool.and_eq_true,
    Bool.not_eq_true', Bool.and_eq_false_iff, Bool.or_eq_true, Bool.not_eq_true,
    beq_iff_eq, beq_eq_false_iff_ne, ne_eq, Bool.not_eq_true']
  constructor
  · rintro ⟨hmem, h1, h2⟩
    refine ⟨hmem, ?_, h2⟩
    rcases h1 with h | h
    · rintro ⟨hp, -⟩; rw [hp] at h; cases h
    · rintro ⟨-, hv⟩; exact h hv
  · rintro ⟨hmem, h1, h2⟩
    refine ⟨hmem, ?_, h2⟩
    by_cases hp : preserve = true
    · exact Or.inr (fun hv => h1 ⟨hp, hv⟩)
    · exact Or.inl (Bool.not_eq_true preserve ▸ hp)

end PhpLemmas

section PhpLemmas2

open Php

lemma mem_delete_fpm_iff (s : Php.Settings) (db : List Php.WebApp)
    (w : Php.WebApp) (preserve : Bool) (x : Php.Stmt) :
    x ∈ Php.delete_fpm s db w preserve ↔
      ∃ u ∈ Php.all_versions_to_delete s db w preserve,
        x = .rmFile (s.fpmPoolPath u) := by
  simp [Php.delete_fpm, List.mem_map, eq_comm]

lemma mem_delete_fcgid_iff (s : Php.Settings) (db : List Php.WebApp)
    (w : Php.WebApp) (preserve : Bool) (x : Php.Stmt) :
    x ∈ Php.delete_fcgid s db w preserve ↔
      ∃ u ∈ Php.all_versions_to_delete s db w preserve,
        x = .rmFile (s.fcgidWrapperPath u) ∨
        x = .rmFile (s.fcgidCmdOptionsPath u) := by
  simp only [Php.delete_fcgid, List.mem_flatMap, List.mem_cons,
    List.mem_singleton, List.not_mem_nil, or_false]

lemma avd_subset_versions (s : Php.Settings) (db : List Php.WebApp)
    (w : Php.WebApp) (preserve : Bool) (u : String)
    (h : u ∈ Php.all_versions_to_delete s db w preserve) :
    u ∈ s.php_versions :=
  ((mem_all_versions_to_delete s db w preserve u).mp h).1

lemma avd_ne_active (s : Php.Settings) (db : List Php.WebApp)
    (w : Php.WebApp) (u : String)
    (h : u ∈ Php.all_versions_to_delete s db w true) :
    u ≠ w.php_version := by
  intro hu
  exact ((mem_all_versions_to_delete s db w true u).mp h).2.1 ⟨rfl, hu⟩

end PhpLemmas2

section PhpLemmas3

open Php

lemma rm_mem_save_iff (s : Php.Settings) (db : List Php.WebApp)
    (w : Php.WebApp) (stmts : List Php.Stmt) (p : String)
    (hsave : Php.save s db w = .ok stmts) :
    Php.Stmt.rmFile p ∈ stmts ↔
      (Php.Stmt.rmFile p ∈ Php.delete_fcgid s db w true ∨
       Php.Stmt.rmFile p ∈ Php.delete_fpm s db w true ∨
       (w.is_fpm = false ∧ w.has_cmd_options = false ∧
        p = s.fcgidCmdOptionsPath w.php_version)) := by
  by_cases hfpm : w.is_fpm = true
  · rw [Php.save, if_pos hfpm] at hsave
    obtain rfl := (Except.ok.inj hsave).symm
    simp [Php.save_fpm, hfpm]
  · by_cases hfcgid : w.is_fcgid = true
    · rw [Php.save, if_neg, if_pos hfcgid] at hsave
      · obtain rfl := (Except.ok.inj hsave).symm
        by_cases hopt : w.has_cmd_options = true
        · simp [Php.save_fcgid, hopt, hfpm]
        · simp only [Bool.not_eq_true] at hfpm hopt
          simp [Php.save_fcgid, hopt, hfpm]
          tauto
      · simp [hfpm]
    · rw [Php.save, if_neg, if_neg] at hsave
      · cases hsave
      · simp [hfcgid]
      · simp [hfpm]

lemma rm_mem_delete_iff (s : Php.Settings) (db : List Php.WebApp)
    (w : Php.WebApp) (p : String) :
    Php.Stmt.rmFile p ∈ Php.delete s db w ↔
      ((w.is_fpm = true ∧ Php.Stmt.rmFile p ∈ Php.delete_fpm s db w false) ∨
       (w.is_fpm = false ∧ w.is_fcgid = true ∧
        Php.Stmt.rmFile p ∈ Php.delete_fcgid s db w false)) := by
  by_cases hfpm : w.is_fpm = true
  · simp [Php.delete, hfpm]
  · by_cases hfcgid : w.is_fcgid = true
    · simp only [Bool.not_eq_true] at hfpm
      simp [Php.delete, hfpm, hfcgid]
    · simp only [Bool.not_eq_true] at hfpm hfcgid
      simp [Php.delete, hfpm, hfcgid]

end PhpLemmas3

/-- Counterexample to C7: with merging enabled and a sibling webapp of
the same account on PHP 7.0, `save` of the PHP 5.6 webapp emits no
removal statement for the 7.0 configuration even though 7.0 is a
configured version different from the active one. -/
theorem C7_counterexample_sibling_version_kept :
    phpS0.merge = true ∧
    ("7.0") ∈ phpS0.php_versions ∧ ("7.0") ≠ phpW0.php_version ∧
    Php.has_sibilings phpDb0 phpW0 ("7.0") = true ∧
    Php.save phpS0 phpDb0 phpW0 =
      .ok [.createDir, .writeFpm ("/etc/php/5.6/fpm/pool.d/acc.conf"),
           .comment ("Clean non-used PHP FCGID wrappers and FPM pools"),
           .underConstruction] ∧
    Php.Stmt.rmFile (phpS0.fpmPoolPath ("7.0")) ∉
      ([.createDir, .writeFpm ("/etc/php/5.6/fpm/pool.d/acc.conf"),
        .comment ("Clean non-used PHP FCGID wrappers and FPM pools"),
        .underConstruction] : List Php.Stmt) := by
  refine ⟨rfl, by decide, by decide, by decide, rfl, by decide⟩

/-- Claim C7 as amended: `save` emits pool, wrapper and cmd-options
removals for every configured version other than the active one except
those protected by a merge-enabled sibling, and never removes the
active version's pool or wrapper; `delete` removes, for the webapp's
execution type, every configured unprotected version including the
active one, plus the webapp directory. -/
theorem C7_cleanup_with_preservation
    (s : Php.Settings) (db : List Php.WebApp) (w : Php.WebApp)
    (stmts : List Php.Stmt) (v : String)
    (hsave : Php.save s db w = .ok stmts)
    (hv : v ∈ s.php_versions)
    (hPaths : Php.PathsOk s)
    (hact : w.php_version ∈ s.php_versions) :
    ((v ≠ w.php_version ∧ (s.merge = false ∨ Php.has_sibilings db w v = false)) →
        Php.Stmt.rmFile (s.fpmPoolPath v) ∈ stmts ∧
        Php.Stmt.rmFile (s.fcgidWrapperPath v) ∈ stmts ∧
        Php.Stmt.rmFile (s.fcgidCmdOptionsPath v) ∈ stmts) ∧
    (Php.Stmt.rmFile (s.fpmPoolPath w.php_version) ∉ stmts ∧
     Php.Stmt.rmFile (s.fcgidWrapperPath w.php_version) ∉ stmts) ∧
    ((s.merge = false ∨ Php.has_sibilings db w v = false) →
        (w.is_fpm = true →
            Php.Stmt.rmFile (s.fpmPoolPath v) ∈ Php.delete s db w) ∧
        (w.is_fpm = false → w.is_fcgid = true →
            Php.Stmt.rmFile (s.fcgidWrapperPath v) ∈ Php.delete s db w ∧
            Php.Stmt.rmFile (s.fcgidCmdOptionsPath v) ∈ Php.delete s db w)) ∧
    Php.Stmt.rmDir ∈ Php.delete s db w := by
  obtain ⟨hInj, hDisj⟩ := hPaths
  refine ⟨?_, ⟨?_, ?_⟩, ?_, ?_⟩
  · rintro ⟨hne, hc⟩
    have hmem : v ∈ Php.all_versions_to_delete s db w true :=
      (mem_all_versions_to_delete s db w true v).mpr
        ⟨hv, ⟨by rintro ⟨-, h⟩; exact hne h, hc⟩⟩
    refine ⟨?_, ?_, ?_⟩
    · exact (rm_mem_save_iff s db w stmts _ hsave).mpr
        (Or.inr (Or.inl ((mem_delete_fpm_iff s db w true _).mpr ⟨v, hmem, rfl⟩)))
    · exact (rm_mem_save_iff s db w stmts _ hsave).mpr
        (Or.inl ((mem_delete_fcgid_iff s db w true _).mpr ⟨v, hmem, Or.inl rfl⟩))
    · exact (rm_mem_save_iff s db w stmts _ hsave).mpr
        (Or.inl ((mem_delete_fcgid_iff s db w true _).mpr ⟨v, hmem, Or.inr rfl⟩))
  · intro hmem
    rcases (rm_mem_save_iff s db w stmts _ hsave).mp hmem with h | h | h
    · rcases (mem_delete_fcgid_iff s db w true _).mp h with ⟨u, hu, h2 | h2⟩
      · simp only [Php.Stmt.rmFile.injEq] at h2
        exact (hDisj _ hact _ (avd_subset_versions s db w true u hu)).1 h2
      · simp only [Php.Stmt.rmFile.injEq] at h2
        exact (hDisj _ hact _ (avd_subset_versions s db w true u hu)).2.1 h2
    · rcases (mem_delete_fpm_iff s db w true _).mp h with ⟨u, hu, h2⟩
      simp only [Php.Stmt.rmFile.injEq] at h2
      exact avd_ne_active s db w u hu
        (((hInj _ (avd_subset_versions s db w true u hu) _ hact).1 h2.symm))
    · exact (hDisj _ hact _ hact).2.1 h.2.2
  · intro hmem
    rcases (rm_mem_save_iff s db w stmts _ hsave).mp hmem with h | h | h
    · rcases (mem_delete_fcgid_iff s db w true _).mp h with ⟨u, hu, h2 | h2⟩
      · simp only [Php.Stmt.rmFile.injEq] at h2
        exact avd_ne_active s db w u hu
          (((hInj _ (avd_subset_versions s db w true u hu) _ hact).2.1 h2.symm))
      · simp only [Php.Stmt.rmFile.injEq] at h2
        exact (hDisj _ hact _ (avd_subset_versions s db w true u hu)).2.2 h2
    · rcases (mem_delete_fpm_iff s db w true _).mp h with ⟨u, hu, h2⟩
      simp only [Php.Stmt.rmFile.injEq] at h2
      exact (hDisj _ (avd_subset_versions s db w true u hu) _ hact).1 h2.symm
    · exact (hDisj _ hact _ hact).2.2 h.2.2
  · intro hc
    have hmem0 : v ∈ Php.all_versions_to_delete s db w false :=
      (mem_all_versions_to_delete s db w false v).mpr
        ⟨hv, ⟨by rintro ⟨h, -⟩; exact Bool.false_ne_true h, hc⟩⟩
    constructor
    · intro hfpm
      exact (rm_mem_delete_iff s db w _).mpr
        (Or.inl ⟨hfpm, (mem_delete_fpm_iff s db w false _).mpr ⟨v, hmem0, rfl⟩⟩)
    · intro hfpm hfcgid
      constructor
      · exact (rm_mem_delete_iff s db w _).mpr
          (Or.inr ⟨hfpm, hfcgid,
            (mem_delete_fcgid_iff s db w false _).mpr ⟨v, hmem0, Or.inl rfl⟩⟩)
      · exact (rm_mem_delete_iff s db w _).mpr
          (Or.inr ⟨hfpm, hfcgid,
            (mem_delete_fcgid_iff s db w false _).mpr ⟨v, hmem0, Or.inr rfl⟩⟩)
  · simp [Php.delete]

/-- Witness for C7 with merging disabled: the 7.0 cleanup statements are
present in the concrete save script and the delete script removes the
webapp directory. -/
theorem C7_cleanup_with_preservation_witness :
    (Php.Stmt.rmFile (phpS0noMerge.fpmPoolPath ("7.0")) ∈
      ([.createDir, .writeFpm ("/etc/php/5.6/fpm/pool.d/acc.conf"),
        .comment ("Clean non-used PHP FCGID wrappers and FPM pools"),
        .rmFile ("/home/acc/webapps/php7.0/wrapper"),
        .rmFile ("/etc/apache2/fcgid/acc-7.0.conf"),
        .rmFile ("/etc/php/7.0/fpm/pool.d/acc.conf"),
        .underConstruction] : List Php.Stmt)) ∧
    Php.Stmt.rmFile (phpS0noMerge.fpmPoolPath ("5.6")) ∉
      ([.createDir, .writeFpm ("/etc/php/5.6/fpm/pool.d/acc.conf"),
        .comment ("Clean non-used PHP FCGID wrappers and FPM pools"),
        .rmFile ("/home/acc/webapps/php7.0/wrapper"),
        .rmFile ("/etc/apache2/fcgid/acc-7.0.conf"),
        .rmFile ("/etc/php/7.0/fpm/pool.d/acc.conf"),
        .underConstruction] : List Php.Stmt) ∧
    Php.Stmt.rmDir ∈ Php.delete phpS0noMerge phpDb0 phpW0 :=
  have T := C7_cleanup_with_preservation phpS0noMerge phpDb0 phpW0
      ([.createDir, .writeFpm ("/etc/php/5.6/fpm/pool.d/acc.conf"),
        .comment ("Clean non-used PHP FCGID wrappers and FPM pools"),
        .rmFile ("/home/acc/webapps/php7.0/wrapper"),
        .rmFile ("/etc/apache2/fcgid/acc-7.0.conf"),
        .rmFile ("/etc/php/7.0/fpm/pool.d/acc.conf"),
        .underConstruction] : List Php.Stmt) ("7.0")
      rfl (by decide) (by unfold Php.PathsOk; decide) (by decide)
  ⟨(T.1 ⟨by decide, Or.inl rfl⟩).1, T.2.1.1, T.2.2.2⟩

/-- Counterexample to C8: with the merge setting disabled, deleting one
of two same-account webapps sharing PHP 5.6 does emit the removal of
the shared 5.6 pool even though a sibling exists. -/
theorem C8_counterexample_no_merge_no_protection :
    phpS0noMerge.merge = false ∧
    Php.has_sibilings phpDb1 phpW0 ("5.6") = true ∧
    Php.Stmt.rmFile (phpS0noMerge.fpmPoolPath ("5.6")) ∈
      Php.delete phpS0noMerge phpDb1 phpW0 := by
  refine ⟨rfl, by decide, by decide⟩

/-- Claim C8 as amended: whenever the merge setting is enabled and a
sibling webapp of the same account selects the same PHP version, that
version is skipped by the cleanup enumeration and `delete` emits no
removal statement for its pool, wrapper or cmd-options configuration. -/
theorem C8_sibling_protection
    (s : Php.Settings) (db : List Php.WebApp) (w : Php.WebApp) (v : String)
    (hmerge : s.merge = true) (hsib : Php.has_sibilings db w v = true)
    (hPaths : Php.PathsOk s) (hv : v ∈ s.php_versions) :
    (∀ preserve : Bool, v ∉ Php.all_versions_to_delete s db w preserve) ∧
    Php.Stmt.rmFile (s.fpmPoolPath v) ∉ Php.delete s db w ∧
    Php.Stmt.rmFile (s.fcgidWrapperPath v) ∉ Php.delete s db w ∧
    Php.Stmt.rmFile (s.fcgidCmdOptionsPath v) ∉ Php.delete s db w := by
  obtain ⟨hInj, hDisj⟩ := hPaths
  have hno : ∀ preserve : Bool, v ∉ Php.all_versions_to_delete s db w preserve := by
    intro preserve hmem
    rcases ((mem_all_versions_to_delete s db w preserve v).mp hmem).2.2 with h | h
    · rw [hmerge] at h; simp at h
    · rw [hsib] at h; simp at h
  refine ⟨hno, ?_, ?_, ?_⟩
  · intro hmem
    rcases (rm_mem_delete_iff s db w _).mp hmem with ⟨-, h⟩ | ⟨-, -, h⟩
    · obtain ⟨u, hu, h2⟩ := (mem_delete_fpm_iff s db w false _).mp h
      simp only [Php.Stmt.rmFile.injEq] at h2
      have hu' := avd_subset_versions s db w false u hu
      exact hno false (((hInj _ hv _ hu').1 h2) ▸ hu)
    · obtain ⟨u, hu, h2 | h2⟩ := (mem_delete_fcgid_iff s db w false _).mp h
      · simp only [Php.Stmt.rmFile.injEq] at h2
        exact (hDisj _ hv _ (avd_subset_versions s db w false u hu)).1 h2
      · simp only [Php.Stmt.rmFile.injEq] at h2
        exact (hDisj _ hv _ (avd_subset_versions s db w false u hu)).2.1 h2
  · intro hmem
    rcases (rm_mem_delete_iff s db w _).mp hmem with ⟨-, h⟩ | ⟨-, -, h⟩
    · obtain ⟨u, hu, h2⟩ := (mem_delete_fpm_iff s db w false _).mp h
      simp only [Php.Stmt.rmFile.injEq] at h2
      exact (hDisj _ (avd_subset_versions s db w false u hu) _ hv).1 h2.symm
    · obtain ⟨u, hu, h2 | h2⟩ := (mem_delete_fcgid_iff s db w false _).mp h
      · simp only [Php.Stmt.rmFile.injEq] at h2
        have hu' := avd_subset_versions s db w false u hu
        exact hno false (((hInj _ hv _ hu').2.1 h2) ▸ hu)
      · simp only [Php.Stmt.rmFile.injEq] at h2
        exact (hDisj _ hv _ (avd_subset_versions s db w false u hu)).2.2 h2
  · intro hmem
    rcases (rm_mem_delete_iff s db w _).mp hmem with ⟨-, h⟩ | ⟨-, -, h⟩
    · obtain ⟨u, hu, h2⟩ := (mem_delete_fpm_iff s db w false _).mp h
      simp only [Php.Stmt.rmFile.injEq] at h2
      exact (hDisj _ (avd_subset_versions s db w false u hu) _ hv).2.1 h2.symm
    · obtain ⟨u, hu, h2 | h2⟩ := (mem_delete_fcgid_iff s db w false _).mp h
      · simp only [Php.Stmt.rmFile.injEq] at h2
        exact (hDisj _ (avd_subset_versions s db w false u hu) _ hv).2.2 h2.symm
      · simp only [Php.Stmt.rmFile.injEq] at h2
        have hu' := avd_subset_versions s db w false u hu
        exact hno false (((hInj _ hv _ hu').2.2 h2) ▸ hu)
  
/-- Witness for C8 at the concrete merged deployment: the shared 5.6
pool of the sibling pair is not removed. -/
theorem C8_sibling_protection_witness :
    Php.Stmt.rmFile (phpS0.fpmPoolPath ("5.6")) ∉
      Php.delete phpS0 phpDb1 phpW0 :=
  (C8_sibling_protection phpS0 phpDb1 phpW0 ("5.6") rfl (by decide)
    (by unfold Php.PathsOk; decide) (by decide)).2.1

/-- Claim C9: `save` on a webapp whose execution type is neither FPM
nor FCGID raises `TypeError("Unknown PHP execution type")` and produces
no script at all for that resource. -/
theorem C9_save_unknown_type_fatal
    (s : Php.Settings) (db : List Php.WebApp) (w : Php.WebApp)
    (hfpm : w.is_fpm = false) (hfcgid : w.is_fcgid = false) :
    Php.save s db w = .error ("Unknown PHP execution type") := by
  simp [Php.save, hfpm, hfcgid]

/-- Witness for C9 at the concrete unknown-type webapp. -/
theorem C9_save_unknown_type_fatal_witness :
    Php.save phpS0 phpDb0 phpWeird = .error ("Unknown PHP execution type") :=
  C9_save_unknown_type_fatal phpS0 phpDb0 phpWeird rfl rfl

/-- Claim C10: `delete` on a webapp whose execution type is neither FPM
nor FCGID does not raise: it emits no pool or wrapper removal for any
version, yet still removes the webapp's directory. -/
theorem C10_delete_unknown_type_silent
    (s : Php.Settings) (db : List Php.WebApp) (w : Php.WebApp)
    (hfpm : w.is_fpm = false) (hfcgid : w.is_fcgid = false) :
    Php.delete s db w = [.rmDir] := by
  simp [Php.delete, hfpm, hfcgid]

/-- Witness for C10 at the concrete unknown-type webapp. -/
theorem C10_delete_unknown_type_silent_witness :
    Php.delete phpS0 phpDb0 phpWeird = [.rmDir] :=
  C10_delete_unknown_type_silent phpS0 phpDb0 phpWeird rfl rfl

section C2Lemmas

open Coord

lemma plainCnt_othersOf (pn n : String) (m : List Coord.Entry) :
    (Coord.othersOf pn m).countP (fun e => !e.restart && e.name == n) =
      if n = pn then 0
      else m.countP (fun e => !e.restart && e.name == n) := by
  unfold Coord.othersOf
  rw [List.countP_filter]
  split_ifs with h
  · subst h
    apply List.countP_eq_zero.mpr
    intro e _
    by_cases hn : e.name = n <;> simp [hn]
  · apply List.countP_congr
    intro e _
    by_cases hn : e.name = n <;> simp [hn, h]

lemma nameCnt_othersOf (pn n : String) (m : List Coord.Entry) :
    (Coord.othersOf pn m).countP (fun e => e.name == n) =
      if n = pn then 0 else m.countP (fun e => e.name == n) := by
  unfold Coord.othersOf
  rw [List.countP_filter]
  split_ifs with h
  · subst h
    apply List.countP_eq_zero.mpr
    intro e _
    by_cases hn : e.name = n <;> simp [hn]
  · apply List.countP_congr
    intro e _
    by_cases hn : e.name = n <;> simp [hn, h]

lemma runCommits_at_most_once (ps : List Coord.Participant) :
    ∀ (cs : List Coord.Participant) (m : List Coord.Entry),
      (∀ n, m.countP (fun e => !e.restart && e.name == n) =
          cs.countP (fun p => p.name == n)) →
      (∀ n, m.countP (fun e => e.name == n) ≤ 1) →
      (∀ p ∈ cs, p ∈ ps) →
      ((cs.map (·.name)).Nodup) →
      Coord.restartFromUpdated ps m →
      ((Coord.runCommits cs (some m)).countP (·.fired) ≤ 1) ∧
      (∀ r ∈ Coord.runCommits cs (some m), r.fired = true →
          r.others.all (·.restart) = true ∧ ∃ p, p ∈ ps ∧ p.updated = true) := by
  intro cs
  induction cs with
  | nil =>
    intro m _ _ _ _ _
    simp [Coord.runCommits]
  | cons p cs2 ih =>
    intro m hplain hnames hsub hnodup hrest
    cases cs2 with
    | nil =>
      have hallr : (Coord.othersOf p.name m).all (·.restart) = true := by
        rw [List.all_eq_true]
        intro e he
        rw [Coord.othersOf, List.mem_filter] at he
        obtain ⟨hem, hne⟩ := he
        by_contra hnr
        rw [Bool.not_eq_true] at hnr
        have hpos : 0 < m.countP (fun x => !x.restart && x.name == e.name) :=
          List.countP_pos.mpr ⟨e, hem, by simp [hnr]⟩
        rw [hplain e.name] at hpos
        have hne2 : e.name ≠ p.name := of_decide_eq_true hne
        have hne' : p.name ≠ e.name := fun hsymm => hne2 hsymm.symm
        simp [List.countP_cons, hne'] at hpos
      have hstep : Coord.commitStep p m =
          ⟨none, p.updated || !(Coord.othersOf p.name m).isEmpty,
           Coord.othersOf p.name m⟩ := by
        rw [Coord.commitStep, if_pos hallr]
      have h1 : Coord.runCommits [p] (some m) = [Coord.commitStep p m] := rfl
      constructor
      · rw [h1, List.countP_cons]
        split_ifs <;> simp
      · intro r hr hf
        rw [h1] at hr
        rcases List.mem_cons.mp hr with hr | hr
        · subst hr
          rw [hstep] at hf ⊢
          simp only at hf ⊢
          refine ⟨hallr, ?_⟩
          rcases Bool.or_eq_true _ _ |>.mp hf with hupd | hne
          · exact ⟨p, hsub p (List.mem_cons_self p []), hupd⟩
          · cases hos : Coord.othersOf p.name m with
            | nil => rw [hos] at hne; simp at hne
            | cons a t =>
              have he : a ∈ Coord.othersOf p.name m := by
                rw [hos]; exact List.mem_cons_self a t
              have her : a.restart = true := List.all_eq_true.mp hallr a he
              have hem : a ∈ m := (List.mem_filter.mp he).1
              obtain ⟨x, hx, -, hxu⟩ := hrest a hem her
              exact ⟨x, hx, hxu⟩
        · simp at hr
    | cons q cs3 =>
      have hqn : q.name ≠ p.name := by
        intro h
        exact (List.nodup_cons.mp hnodup).1
          (List.mem_map.mpr ⟨q, List.mem_cons_self q cs3, h⟩)
      have hplainq : 0 < m.countP (fun e => !e.restart && e.name == q.name) := by
        rw [hplain q.name]
        simp [List.countP_cons]
      obtain ⟨e, hem, hprop⟩ := List.countP_pos.mp hplainq
      rw [Bool.and_eq_true, Bool.not_eq_true', beq_iff_eq] at hprop
      have heos : e ∈ Coord.othersOf p.name m :=
        List.mem_filter.mpr ⟨hem, by simp [hprop.2, hqn]⟩
      have hnall : ¬ ((Coord.othersOf p.name m).all (·.restart) = true) := by
        intro hall
        have := List.all_eq_true.mp hall e heos
        rw [hprop.1] at this
        cases this
      have hstep : Coord.commitStep p m =
          ⟨some ((Coord.othersOf p.name m) ++
              if p.updated then [⟨p.name, true⟩] else []), false,
           Coord.othersOf p.name m⟩ := by
        rw [Coord.commitStep, if_neg hnall]
      have hpn_not : ∀ x ∈ q :: cs3, ¬ (x.name == p.name) = true := by
        intro x hx hbeq
        rw [beq_iff_eq] at hbeq
        exact (List.nodup_cons.mp hnodup).1 (List.mem_map.mpr ⟨x, hx, hbeq⟩)
      have hih := ih ((Coord.othersOf p.name m) ++
          if p.updated then [⟨p.name, true⟩] else [])
        (by
          intro n
          rw [List.countP_append, plainCnt_othersOf]
          by_cases hn : n = p.name
          · subst hn
            rw [if_pos rfl]
            have h0 : (q :: cs3).countP (fun x => x.name == p.name) = 0 :=
              List.countP_eq_zero.mpr hpn_not
            rw [h0]
            cases hu : p.updated <;> simp
          · rw [if_neg hn]
            have := hplain n
            rw [List.countP_cons] at this
            have hne' : ¬ (p.name == n) = true := by
              rw [beq_iff_eq]; exact fun h => hn h.symm
            rw [if_neg hne', add_zero] at this
            rw [this]
            have hopt0 : (if p.updated then [(⟨p.name, true⟩ : Coord.Entry)]
                else []).countP (fun e => !e.restart && e.name == n) = 0 := by
              cases hu : p.updated
              · simp
              · simp
            rw [hopt0, add_zero])
        (by
          intro n
          rw [List.countP_append, nameCnt_othersOf]
          by_cases hn : n = p.name
          · subst hn
            rw [if_pos rfl, zero_add]
            cases hu : p.updated <;> simp
          · rw [if_neg hn]
            have hopt : (if p.updated then [(⟨p.name, true⟩ : Coord.Entry)]
                else []).countP (fun e => e.name == n) = 0 := by
              have hn2 : ¬ (p.name = n) := fun h => hn h.symm
              cases hu : p.updated
              · simp
              · simp [hn2]
            rw [hopt, add_zero]
            exact hnames n)
        (fun x hx => hsub x (List.mem_cons_of_mem p hx))
        ((List.nodup_cons.mp hnodup).2)
        (by
          intro e2 he2 hr2
          rcases List.mem_append.mp he2 with h | h
          · exact hrest e2 ((List.mem_filter.mp h).1) hr2
          · cases hu : p.updated with
            | true =>
              rw [hu] at h
              simp only [if_true, List.mem_singleton] at h
              subst h
              exact ⟨p, hsub p (List.mem_cons_self p _), rfl, hu⟩
            | false =>
              rw [hu] at h
              simp at h)
      have htrace : Coord.runCommits (p :: q :: cs3) (some m) =
          Coord.commitStep p m ::
            Coord.runCommits (q :: cs3) (Coord.commitStep p m).marker := rfl
      constructor
      · rw [htrace, hstep, List.countP_cons]
        simpa using hih.1
      · intro r hr hf
        rw [htrace, hstep] at hr
        rcases List.mem_cons.mp hr with hr | hr
        · subst hr
          simp at hf
        · exact hih.2 r hr hf

end C2Lemmas

/-- Counterexample to C2: Apache2Backend commits first with a change
flagged (deferring the restart); PHPBackend's commit then finds the
remaining entry `Apache2Backend RESTART` — entries for another backend
remain and one of them requests a deferred restart — yet it performs
the shared action.  The claim's guard ("no entries remain for other
backends and none request a deferred restart") is false for the
performer. -/
theorem C2_counterexample_last_with_restart_entries :
    Coord.runCommits
        [⟨"Apache2Backend", true⟩, ⟨"PHPBackend", false⟩]
        (some (([⟨"Apache2Backend", true⟩, ⟨"PHPBackend", false⟩] :
            List Coord.Participant).map Coord.plainEntry)) =
      [⟨some [⟨"PHPBackend", false⟩, ⟨"Apache2Backend", true⟩], false,
          [⟨"PHPBackend", false⟩]⟩,
       ⟨none, true, [⟨"Apache2Backend", true⟩]⟩] ∧
    ¬ Coord.claimGuardC2 ⟨none, true, [⟨"Apache2Backend", true⟩]⟩ := by
  constructor
  · decide
  · simp [Coord.claimGuardC2]

/-- Claim C2 as amended: for every batch in which the participants all
register before any commits and then commit in an arbitrary order, the
shared action executes at most once; it is performed only by a
participant whose commit finds that every entry remaining after
removing its own is a deferred-restart request (in particular no plain
registration of another backend remains), and only when some
participant flagged a change. -/
theorem C2_shared_action_at_most_once
    (ps qs cs : List Coord.Participant)
    (hq : qs.Perm ps) (hc : cs.Perm ps)
    (hnodup : (ps.map (·.name)).Nodup) :
    ((Coord.runCommits cs (some (qs.map Coord.plainEntry))).countP (·.fired) ≤ 1) ∧
    (∀ r ∈ Coord.runCommits cs (some (qs.map Coord.plainEntry)), r.fired = true →
        r.others.all (·.restart) = true ∧ ∃ p, p ∈ ps ∧ p.updated = true) := by
  apply runCommits_at_most_once ps cs (qs.map Coord.plainEntry)
  · intro n
    rw [List.countP_map]
    rw [List.countP_congr (q := fun p => p.name == n)
      (by intro x _; simp [Coord.plainEntry, Function.comp])]
    exact (hq.trans hc.symm).countP_eq _
  · intro n
    rw [List.countP_map]
    rw [List.countP_congr (q := fun p => p.name == n)
      (by intro x _; simp [Coord.plainEntry, Function.comp])]
    rw [hq.countP_eq]
    have h1 := List.nodup_iff_count_le_one.mp hnodup n
    rw [List.count_eq_countP, List.countP_map] at h1
    exact le_trans (le_of_eq (List.countP_congr (by intro x _; simp))) h1
  · intro p hp
    exact hc.mem_iff.mp hp
  · exact ((hc.map (·.name)).nodup_iff).mpr hnodup
  · intro e he hr
    obtain ⟨x, -, rfl⟩ := List.mem_map.mp he
    exact absurd hr (by simp [Coord.plainEntry])

/-- Witness for C2 at the concrete two-participant batch. -/
theorem C2_shared_action_at_most_once_witness :
    (Coord.runCommits
        [⟨"Apache2Backend", true⟩, ⟨"PHPBackend", false⟩]
        (some (([⟨"Apache2Backend", true⟩, ⟨"PHPBackend", false⟩] :
            List Coord.Participant).map Coord.plainEntry))).countP (·.fired) ≤ 1 :=
  (C2_shared_action_at_most_once
      [⟨"Apache2Backend", true⟩, ⟨"PHPBackend", false⟩]
      [⟨"Apache2Backend", true⟩, ⟨"PHPBackend", false⟩]
      [⟨"Apache2Backend", true⟩, ⟨"PHPBackend", false⟩]
      (List.Perm.refl _) (List.Perm.refl _) (by decide)).1

section C4Lemmas

open Numbering

lemma strVal_foldl (s : Numbering.Str) :
    ∀ a : ℕ, s.foldl (fun x c => x * 10 + Numbering.charVal c) a =
      a * 10 ^ s.length + Numbering.strVal s := by
  induction s with
  | nil => intro a; simp [Numbering.strVal]
  | cons c cs ih =>
    intro a
    have h1 := ih (a * 10 + Numbering.charVal c)
    have h2 := ih (0 * 10 + Numbering.charVal c)
    simp only [List.foldl_cons, Numbering.strVal] at h1 h2 ⊢
    rw [h1, h2]
    simp only [List.length_cons, pow_succ]
    ring

lemma strVal_append (x y : Numbering.Str) :
    Numbering.strVal (x ++ y) = Numbering.strVal x * 10 ^ y.length +
      Numbering.strVal y := by
  rw [Numbering.strVal, List.foldl_append]
  rw [show List.foldl (fun a c => a * 10 + Numbering.charVal c) 0 x =
      Numbering.strVal x from rfl]
  exact strVal_foldl y (Numbering.strVal x)

lemma charVal_le_nine {c : Char} (h : Numbering.isDigitCh c = true) :
    Numbering.charVal c ≤ 9 := by
  rw [Numbering.isDigitCh, Bool.and_eq_true, decide_eq_true_eq,
    decide_eq_true_eq] at h
  rw [Numbering.charVal]
  omega

lemma strVal_lt_pow (s : Numbering.Str) (h : Numbering.allDigits s = true) :
    Numbering.strVal s < 10 ^ s.length := by
  induction s with
  | nil => simp [Numbering.strVal]
  | cons c cs ih =>
    rw [Numbering.allDigits, List.all_cons, Bool.and_eq_true] at h
    have hc := charVal_le_nine h.1
    have htail := ih h.2
    have hcons : Numbering.strVal (c :: cs) =
        Numbering.charVal c * 10 ^ cs.length + Numbering.strVal cs := by
      rw [Numbering.strVal, List.foldl_cons]
      have := strVal_foldl cs (0 * 10 + Numbering.charVal c)
      simpa using this
    rw [hcons, List.length_cons, pow_succ]
    nlinarith

lemma strLt_irrefl (a : Numbering.Str) : Numbering.strLt a a = false := by
  induction a with
  | nil => rfl
  | cons c cs ih => simp [Numbering.strLt, ih]

lemma strLt_asymm : ∀ a b : Numbering.Str,
    Numbering.strLt a b = true → Numbering.strLt b a = false := by
  intro a
  induction a with
  | nil =>
    intro b h
    cases b with
    | nil => rfl
    | cons y ys => rfl
  | cons x xs ih =>
    intro b h
    cases b with
    | nil => cases h
    | cons y ys =>
      rw [Numbering.strLt] at h ⊢
      by_cases h1 : x.toNat < y.toNat
      · rw [if_neg (by omega), if_pos h1]
      · rw [if_neg h1] at h
        by_cases h2 : y.toNat < x.toNat
        · rw [if_pos h2] at h; cases h
        · rw [if_neg h2] at h
          rw [if_neg h2, if_neg h1]
          exact ih ys h

lemma strLt_false_trans : ∀ a b c : Numbering.Str,
    Numbering.strLt a b = false → Numbering.strLt b c = false →
    Numbering.strLt a c = false := by
  intro a
  induction a with
  | nil =>
    intro b c hab hbc
    cases b with
    | nil => exact hbc
    | cons y ys => cases hab
  | cons x xs ih =>
    intro b c hab hbc
    cases b with
    | nil =>
      cases c with
      | nil => rfl
      | cons z zs => cases hbc
    | cons y ys =>
      cases c with
      | nil => rfl
      | cons z zs =>
        rw [Numbering.strLt] at hab hbc ⊢
        by_cases hxy : x.toNat < y.toNat
        · rw [if_pos hxy] at hab; cases hab
        · rw [if_neg hxy] at hab
          by_cases hyz : y.toNat < z.toNat
          · rw [if_pos hyz] at hbc; cases hbc
          · rw [if_neg hyz] at hbc
            by_cases hxz : x.toNat < z.toNat
            · omega
            · rw [if_neg hxz]
              by_cases hzx : z.toNat < x.toNat
              · rw [if_pos hzx]
              · rw [if_neg hzx]
                by_cases hyx : y.toNat < x.toNat
                · omega
                · rw [if_neg hyx] at hab
                  by_cases hzy : z.toNat < y.toNat
                  · omega
                  · rw [if_neg hzy] at hbc
                    exact ih ys zs hab hbc

lemma lexMax_mem : ∀ (l : List Numbering.Str) (m : Numbering.Str),
    Numbering.lexMax l = some m → m ∈ l := by
  have haux : ∀ (rest : List Numbering.Str) (acc : Numbering.Str),
      rest.foldl (fun acc t => if Numbering.strLt acc t then t else acc) acc = acc ∨
      rest.foldl (fun acc t => if Numbering.strLt acc t then t else acc) acc ∈ rest := by
    intro rest
    induction rest with
    | nil => intro acc; exact Or.inl rfl
    | cons t ts ih =>
      intro acc
      rcases ih (if Numbering.strLt acc t then t else acc) with h | h
      · rw [List.foldl_cons, h]
        split_ifs with hs
        · exact Or.inr (List.mem_cons_self t ts)
        · exact Or.inl rfl
      · exact Or.inr (List.mem_cons_of_mem t (by rw [List.foldl_cons]; exact h))
  intro l m hm
  cases l with
  | nil => cases hm
  | cons s rest =>
    rw [Numbering.lexMax] at hm
    injection hm with hm
    rcases haux rest s with h | h
    · rw [hm] at h; exact h ▸ List.mem_cons_self s rest
    · rw [hm] at h; exact List.mem_cons_of_mem s h

lemma lexMax_ge : ∀ (l : List Numbering.Str) (m : Numbering.Str),
    Numbering.lexMax l = some m → ∀ s ∈ l, Numbering.strLt m s = false := by
  have haux : ∀ (rest : List Numbering.Str) (acc : Numbering.Str),
      Numbering.strLt (rest.foldl
        (fun acc t => if Numbering.strLt acc t then t else acc) acc) acc = false ∧
      ∀ s ∈ rest, Numbering.strLt (rest.foldl
        (fun acc t => if Numbering.strLt acc t then t else acc) acc) s = false := by
    intro rest
    induction rest with
    | nil =>
      intro acc
      exact ⟨strLt_irrefl acc, by intro s hs; cases hs⟩
    | cons t ts ih =>
      intro acc
      rw [List.foldl_cons]
      obtain ⟨h1, h2⟩ := ih (if Numbering.strLt acc t then t else acc)
      by_cases hs : Numbering.strLt acc t = true
      · rw [if_pos hs] at h1 h2 ⊢
        refine ⟨?_, ?_⟩
        · exact strLt_false_trans _ t acc h1 (strLt_asymm acc t hs)
        · intro s hsm
          rcases List.mem_cons.mp hsm with h | h
          · rw [h]; exact h1
          · exact h2 s h
      · rw [if_neg hs] at h1 h2 ⊢
        refine ⟨h1, ?_⟩
        intro s hsm
        rcases List.mem_cons.mp hsm with h | h
        · have hs2 : Numbering.strLt acc t = false := by
            rw [← Bool.not_eq_true]; exact hs
          rw [h]
          exact strLt_false_trans _ acc t h1 hs2
        · exact h2 s h
  intro l m hm s hs
  cases l with
  | nil => cases hs
  | cons a rest =>
    rw [Numbering.lexMax] at hm
    injection hm with hm
    rcases List.mem_cons.mp hs with h | h
    · rw [h, ← hm]; exact (haux rest a).1
    · rw [← hm]; exact (haux rest a).2 s h

end C4Lemmas

section C4Lemmas2

open Numbering

lemma strVal_cons (c : Char) (cs : Numbering.Str) :
    Numbering.strVal (c :: cs) =
      Numbering.charVal c * 10 ^ cs.length + Numbering.strVal cs := by
  rw [Numbering.strVal, List.foldl_cons]
  have := strVal_foldl cs (0 * 10 + Numbering.charVal c)
  simpa using this

lemma strVal_le_of_not_strLt : ∀ a b : Numbering.Str,
    Numbering.strLt a b = false → a.length = b.length →
    Numbering.allDigits a = true → Numbering.allDigits b = true →
    Numbering.strVal b ≤ Numbering.strVal a := by
  intro a
  induction a with
  | nil =>
    intro b hlt hlen _ _
    cases b with
    | nil => simp [Numbering.strVal]
    | cons y ys => cases hlen
  | cons x xs ih =>
    intro b hlt hlen hda hdb
    cases b with
    | nil => cases hlen
    | cons y ys =>
      rw [Numbering.allDigits, List.all_cons, Bool.and_eq_true] at hda hdb
      have hxd := hda.1
      have hyd := hdb.1
      rw [Numbering.isDigitCh, Bool.and_eq_true, decide_eq_true_eq,
        decide_eq_true_eq] at hxd hyd
      have hlen' : xs.length = ys.length := by simpa using hlen
      rw [Numbering.strLt] at hlt
      by_cases hxy : x.toNat < y.toNat
      · rw [if_pos hxy] at hlt; cases hlt
      · rw [if_neg hxy] at hlt
        by_cases hyx : y.toNat < x.toNat
        · have hcv : Numbering.charVal y < Numbering.charVal x := by
            rw [Numbering.charVal, Numbering.charVal]; omega
          have hbnd := strVal_lt_pow ys hdb.2
          rw [strVal_cons, strVal_cons, hlen']
          have h1 : Numbering.charVal y * 10 ^ ys.length +
              Numbering.strVal ys < (Numbering.charVal y + 1) * 10 ^ ys.length := by
            nlinarith
          have h2 : (Numbering.charVal y + 1) * 10 ^ ys.length ≤
              Numbering.charVal x * 10 ^ ys.length :=
            Nat.mul_le_mul_right _ (by omega)
          omega
        · rw [if_neg hyx] at hlt
          have hcv : Numbering.charVal y = Numbering.charVal x := by
            rw [Numbering.charVal, Numbering.charVal]; omega
          have htail := ih ys hlt hlen' hda.2 hdb.2
          rw [strVal_cons, strVal_cons, hlen', hcv]
          omega

lemma strLt_append_left : ∀ (p a b : Numbering.Str),
    Numbering.strLt (p ++ a) (p ++ b) = Numbering.strLt a b := by
  intro p
  induction p with
  | nil => intro a b; rfl
  | cons c cs ih =>
    intro a b
    simp only [List.cons_append, Numbering.strLt, Nat.lt_irrefl, if_false]
    exact ih a b

lemma charVal_digitCh {d : ℕ} (h : d < 10) :
    Numbering.charVal (Numbering.digitCh d) = d := by
  interval_cases d <;> decide

lemma isDigitCh_digitCh {d : ℕ} (h : d < 10) :
    Numbering.isDigitCh (Numbering.digitCh d) = true := by
  interval_cases d <;> decide

lemma natDigitsAux_bound : ∀ (fuel n d : ℕ),
    d ∈ Numbering.natDigitsAux fuel n → d < 10 := by
  intro fuel
  induction fuel with
  | zero => intro n d h; cases h
  | succ f ih =>
    intro n d h
    rw [Numbering.natDigitsAux] at h
    by_cases hn : n = 0
    · rw [if_pos hn] at h; cases h
    · rw [if_neg hn] at h
      rcases List.mem_append.mp h with h | h
      · exact ih _ _ h
      · rw [List.mem_singleton] at h
        rw [h]
        exact Nat.mod_lt _ (by norm_num)

lemma natDigitsAux_val : ∀ (fuel n : ℕ), n ≤ fuel →
    Numbering.strVal ((Numbering.natDigitsAux fuel n).map Numbering.digitCh) = n := by
  intro fuel
  induction fuel with
  | zero =>
    intro n h
    interval_cases n
    rfl
  | succ f ih =>
    intro n h
    rw [Numbering.natDigitsAux]
    by_cases hn : n = 0
    · rw [if_pos hn, hn]; rfl
    · rw [if_neg hn, List.map_append, strVal_append]
      have hdiv : n / 10 ≤ f := by
        have := Nat.div_lt_self (Nat.pos_of_ne_zero hn) (by norm_num : (1:ℕ) < 10)
        omega
      rw [ih _ hdiv]
      have hmod : Numbering.strVal [Numbering.digitCh (n % 10)] =
          n % 10 := by
        rw [show Numbering.strVal [Numbering.digitCh (n % 10)] =
          Numbering.charVal (Numbering.digitCh (n % 10)) from by
            simp [Numbering.strVal]]
        exact charVal_digitCh (Nat.mod_lt _ (by norm_num))
      simp only [List.map_cons, List.map_nil, List.length_cons,
        List.length_nil, hmod, pow_one]
      omega

lemma natRepr_val (n : ℕ) : Numbering.strVal (Numbering.natRepr n) = n := by
  rw [Numbering.natRepr]
  by_cases hn : n = 0
  · rw [if_pos hn, hn]; rfl
  · rw [if_neg hn]
    exact natDigitsAux_val n n le_rfl

lemma natRepr_digits (n : ℕ) : Numbering.allDigits (Numbering.natRepr n) = true := by
  rw [Numbering.natRepr]
  by_cases hn : n = 0
  · rw [if_pos hn]; rfl
  · rw [if_neg hn, Numbering.allDigits, List.all_eq_true]
    intro c hc
    obtain ⟨d, hd, rfl⟩ := List.mem_map.mp hc
    exact isDigitCh_digitCh (natDigitsAux_bound n n d hd)

lemma replicate_val : ∀ k : ℕ, Numbering.strVal (List.replicate k ('0')) = 0 := by
  intro k
  induction k with
  | zero => rfl
  | succ j ih =>
    rw [List.replicate_succ, strVal_cons, ih]
    have h0 : Numbering.charVal ('0') = 0 := rfl
    rw [h0]
    ring
    
lemma padded_length (L : ℕ) (s : Numbering.Str) (h : s.length ≤ L) :
    (Numbering.padded L s).length = L := by
  rw [Numbering.padded, List.length_append, List.length_replicate]
  omega

lemma padded_val (L : ℕ) (s : Numbering.Str) :
    Numbering.strVal (Numbering.padded L s) = Numbering.strVal s := by
  rw [Numbering.padded, strVal_append, replicate_val]
  ring

lemma padded_digits (L : ℕ) (s : Numbering.Str)
    (h : Numbering.allDigits s = true) :
    Numbering.allDigits (Numbering.padded L s) = true := by
  rw [Numbering.padded, Numbering.allDigits, List.all_append]
  rw [Numbering.allDigits] at h
  rw [h, Bool.and_true]
  rw [List.all_eq_true]
  intro c hc
  rw [List.eq_of_mem_replicate hc]
  decide

end C4Lemmas2

section C4Lemmas3

open Numbering

lemma matchesRx_new (ctx : Numbering.Ctx) (pfx P : Numbering.Str)
    (hyrh : ∃ c cs, ctx.year = c :: cs ∧ Numbering.isNonzeroDigit c = true) :
    Numbering.matchesRx pfx (pfx ++ ctx.year ++ P) = true := by
  obtain ⟨c, cs, hy, hc⟩ := hyrh
  rw [Numbering.matchesRx, Bool.and_eq_true]
  constructor
  · rw [List.append_assoc]
    exact List.isPrefixOf_iff_prefix.mpr (List.prefix_append pfx _)
  · rw [List.append_assoc, List.drop_left, hy, List.cons_append]
    exact hc

lemma parseSeq_wf (pfx y d : Numbering.Str) (hy4 : y.length = 4)
    (hdd : Numbering.allDigits d = true) (hdne : d ≠ []) :
    Numbering.parseSeq pfx (pfx ++ y ++ d) = some (Numbering.strVal d) := by
  rw [Numbering.parseSeq]
  have hdrop : (pfx ++ y ++ d).drop (pfx.length + 4) = d := by
    rw [List.append_assoc, ← List.drop_drop, List.drop_left]
    exact List.drop_left' hy4
  rw [hdrop, Numbering.digitsToNat?, if_pos ⟨hdne, hdd⟩]

lemma newNumber_not_mem
    (ctx : Numbering.Ctx) (pfx : Numbering.Str)
    (existing : List Numbering.Str) (k : ℕ)
    (hyr : Numbering.WFYear ctx)
    (hfit : (Numbering.natRepr k).length ≤ ctx.numberLength)
    (hwf : Numbering.WFExisting ctx pfx existing)
    (hk : Numbering.expectedSeq pfx existing = some k) :
    (pfx ++ ctx.year ++ Numbering.padded ctx.numberLength (Numbering.natRepr k)) ∉
      existing := by
  obtain ⟨hyr4, hyrd, hyrh⟩ := hyr
  intro hmem
  have hmatch := matchesRx_new ctx pfx
    (Numbering.padded ctx.numberLength (Numbering.natRepr k)) hyrh
  have hmemM : (pfx ++ ctx.year ++
      Numbering.padded ctx.numberLength (Numbering.natRepr k)) ∈
        existing.filter (Numbering.matchesRx pfx) :=
    List.mem_filter.mpr ⟨hmem, hmatch⟩
  cases hM : Numbering.lexMax (existing.filter (Numbering.matchesRx pfx)) with
  | none =>
    cases hl : existing.filter (Numbering.matchesRx pfx) with
    | nil => rw [hl] at hmemM; cases hmemM
    | cons a t =>
      rw [hl, Numbering.lexMax] at hM
      cases hM
  | some M =>
    rw [Numbering.expectedSeq, hM] at hk
    have hk1 : (Numbering.parseSeq pfx M).map (· + 1) = some k := hk
    cases hp : Numbering.parseSeq pfx M with
    | none => rw [hp] at hk1; cases hk1
    | some n =>
      rw [hp] at hk1
      simp only [Option.map_some'] at hk1
      injection hk1 with hk2
      have hMmem := lexMax_mem _ M hM
      have hMfacts := List.mem_filter.mp hMmem
      obtain ⟨y, d, hMeq, hy4, hyd, hyle, hdlen, hdd, hdne⟩ :=
        hwf M hMfacts.1 hMfacts.2
      have hn : Numbering.strVal d = n := by
        have hps := parseSeq_wf pfx y d hy4 hdd hdne
        rw [hMeq, hps] at hp
        injection hp
      have hPlen := padded_length ctx.numberLength (Numbering.natRepr k) hfit
      have hge := lexMax_ge _ M hM _ hmemM
      rw [hMeq, List.append_assoc, List.append_assoc, strLt_append_left] at hge
      have hlen2 : (y ++ d).length =
          (ctx.year ++ Numbering.padded ctx.numberLength
            (Numbering.natRepr k)).length := by
        simp [hy4, hyr4, hdlen, hPlen]
      have hda : Numbering.allDigits (y ++ d) = true := by
        rw [Numbering.allDigits, List.all_append, Bool.and_eq_true]
        exact ⟨hyd, hdd⟩
      have hdb : Numbering.allDigits (ctx.year ++
          Numbering.padded ctx.numberLength (Numbering.natRepr k)) = true := by
        rw [Numbering.allDigits, List.all_append, Bool.and_eq_true]
        exact ⟨hyrd, padded_digits _ _ (natRepr_digits k)⟩
      have hval := strVal_le_of_not_strLt (y ++ d)
        (ctx.year ++ Numbering.padded ctx.numberLength (Numbering.natRepr k))
        hge hlen2 hda hdb
      rw [strVal_append, strVal_append, padded_val, natRepr_val,
        hPlen, hdlen] at hval
      have hyv : Numbering.strVal y ≤ Numbering.strVal ctx.year :=
        strVal_le_of_not_strLt ctx.year y hyle (by rw [hyr4, hy4]) hyrd hyd
      have hmul : Numbering.strVal y * 10 ^ ctx.numberLength ≤
          Numbering.strVal ctx.year * 10 ^ ctx.numberLength :=
        Nat.mul_le_mul_right _ hyv
      rw [← hk2, hn] at hval
      revert hval hmul
      generalize Numbering.strVal ctx.year * 10 ^ ctx.numberLength = A
      generalize Numbering.strVal y * 10 ^ ctx.numberLength = B
      intro hval hmul
      omega

end C4Lemmas3

section C4Lemmas4

open Numbering

lemma get_number_eq (ctx : Numbering.Ctx) (pfxB pfx : Numbering.Str)
    (bt : Bills.BillType) (is_open : Bool) (ex : List Numbering.Str) (k : ℕ)
    (hbt : bt ≠ .BILL)
    (hpfx : (if is_open = true then 'O' :: pfxB else pfxB) = pfx)
    (hk : Numbering.expectedSeq pfx ex = some k) :
    Numbering.get_number ctx pfxB bt is_open ex =
      .ok (pfx ++ ctx.year ++
        Numbering.padded ctx.numberLength (Numbering.natRepr k)) := by
  have hk1 := hk
  rw [Numbering.expectedSeq] at hk1
  unfold Numbering.get_number
  rw [if_neg hbt]
  simp only [hpfx]
  cases hM : Numbering.lexMax (ex.filter (Numbering.matchesRx pfx)) with
  | none =>
    rw [hM] at hk1
    have hk2 : some 1 = some k := hk1
    injection hk2 with hk3
    simp only [hM]
    rw [← hk3]
  | some m =>
    rw [hM] at hk1
    have hk2 : (Numbering.parseSeq pfx m).map (· + 1) = some k := hk1
    cases hp : Numbering.parseSeq pfx m with
    | none => rw [hp] at hk2; cases hk2
    | some n =>
      rw [hp] at hk2
      simp only [Option.map_some'] at hk2
      injection hk2 with hk3
      simp only [hM, hp]
      rw [← hk3]

lemma natRepr_ne_nil (n : ℕ) : Numbering.natRepr n ≠ [] := by
  rw [Numbering.natRepr]
  by_cases hn : n = 0
  · rw [if_pos hn]; simp
  · rw [if_neg hn]
    intro h
    rw [List.map_eq_nil] at h
    rw [Numbering.natDigits] at h
    cases fn : n with
    | zero => exact hn fn
    | succ j =>
      rw [fn] at h
      rw [Numbering.natDigitsAux, if_neg (by omega)] at h
      exact absurd h (by simp)

lemma padded_ne_nil (L : ℕ) (s : Numbering.Str) (h : s ≠ []) :
    Numbering.padded L s ≠ [] := by
  rw [Numbering.padded]
  intro h2
  rw [List.append_eq_nil] at h2
  exact h h2.2

lemma save_keeps (ctx : Numbering.Ctx) (pfxOf : Bills.BillType → Numbering.Str)
    (ex : List Numbering.Str) (b : Bills.Bill) (h : b.number ≠ []) :
    Numbering.save ctx pfxOf ex b = .ok b := by
  rw [Numbering.save, if_neg h]

lemma save_assigns (ctx : Numbering.Ctx) (pfxOf : Bills.BillType → Numbering.Str)
    (ex : List Numbering.Str) (b : Bills.Bill) (k : ℕ)
    (hnum : b.number = []) (hopen : b.is_open = true) (hbt : b.type ≠ .BILL)
    (hk : Numbering.expectedSeq ('O' :: pfxOf b.type) ex = some k) :
    Numbering.save ctx pfxOf ex b =
      .ok { b with number := ('O' :: pfxOf b.type) ++ ctx.year ++
        Numbering.padded ctx.numberLength (Numbering.natRepr k) } := by
  rw [Numbering.save, if_pos hnum]
  rw [get_number_eq ctx (pfxOf b.type) ('O' :: pfxOf b.type) b.type b.is_open
    ex k hbt (by rw [hopen]; simp) hk]

lemma close_refuses (ctx : Numbering.Ctx) (pfxOf : Bills.BillType → Numbering.Str)
    (ex : List Numbering.Str) (b : Bills.Bill) (h : b.is_open = false) :
    Numbering.close ctx pfxOf ex b = .error "Bill not in Open state." := by
  rw [Numbering.close, if_pos h]

lemma close_assigns (ctx : Numbering.Ctx) (pfxOf : Bills.BillType → Numbering.Str)
    (ex : List Numbering.Str) (b : Bills.Bill) (k : ℕ)
    (hopen : b.is_open = true) (hbt : b.type ≠ .BILL)
    (hk : Numbering.expectedSeq (pfxOf b.type) ex = some k) :
    Numbering.close ctx pfxOf ex b =
      .ok { b with
            is_open := false
            is_sent := false
            number := pfxOf b.type ++ ctx.year ++
              Numbering.padded ctx.numberLength (Numbering.natRepr k) } := by
  rw [Numbering.close, if_neg (by rw [hopen]; simp)]
  simp only []
  rw [get_number_eq ctx (pfxOf b.type) (pfxOf b.type) b.type false ex k hbt
    (by simp) hk]
  show Numbering.save ctx pfxOf ex
      { b with
        is_open := false
        is_sent := false
        number := pfxOf b.type ++ ctx.year ++
          Numbering.padded ctx.numberLength (Numbering.natRepr k) } =
    Except.ok
      { b with
        is_open := false
        is_sent := false
        number := pfxOf b.type ++ ctx.year ++
          Numbering.padded ctx.numberLength (Numbering.natRepr k) }
  rw [save_keeps ctx pfxOf ex _ (by
    show ¬ (pfxOf b.type ++ ctx.year ++
      Numbering.padded ctx.numberLength (Numbering.natRepr k) = [])
    intro h
    exact padded_ne_nil _ _ (natRepr_ne_nil k) (List.append_eq_nil.mp h).2)]

end C4Lemmas4

/-- Counterexample to C4: saving a freshly created bill that is still
open — an operation other than close, on a bill that was never closed —
assigns it the number `OI2026000001`, so the bill does not remain
number-less until close. -/
theorem C4_counterexample_save_assigns_before_close :
    Numbering.save ctx0 pfxOf0 [] freshBillC4 =
      .ok { freshBillC4 with
            number := ['O', 'I', '2', '0', '2', '6', '0', '0', '0', '0', '0', '1'] } ∧
    (['O', 'I', '2', '0', '2', '6', '0', '0', '0', '0', '0', '1'] : List Char) ≠ [] ∧
    freshBillC4.is_open = true :=
  ⟨rfl, by decide, rfl⟩

/-- Claim C4 as amended: `save` assigns a number whenever it is blank —
open bills get the `O`-prefixed sequence — and never changes a number
that is already set; `close` refuses an already-closed bill and
unconditionally re-assigns the closed-prefix number
`prefix + year + zero-padded (max prior same-prefix sequence + 1)`;
under well-formedness of the stored numbers the closed number is not
among them (uniqueness). -/
theorem C4_number_assignment
    (ctx : Numbering.Ctx) (pfxOf : Bills.BillType → Numbering.Str)
    (ex : List Numbering.Str) (b : Bills.Bill) (k : ℕ) :
    (b.number ≠ [] → Numbering.save ctx pfxOf ex b = .ok b) ∧
    (b.number = [] → b.is_open = true → b.type ≠ .BILL →
      Numbering.expectedSeq ('O' :: pfxOf b.type) ex = some k →
      Numbering.save ctx pfxOf ex b =
        .ok { b with number := ('O' :: pfxOf b.type) ++ ctx.year ++
          Numbering.padded ctx.numberLength (Numbering.natRepr k) }) ∧
    (b.is_open = false →
      Numbering.close ctx pfxOf ex b = .error "Bill not in Open state.") ∧
    (b.is_open = true → b.type ≠ .BILL →
      Numbering.expectedSeq (pfxOf b.type) ex = some k →
      Numbering.close ctx pfxOf ex b =
        .ok { b with
              is_open := false
              is_sent := false
              number := pfxOf b.type ++ ctx.year ++
                Numbering.padded ctx.numberLength (Numbering.natRepr k) }) ∧
    (Numbering.WFYear ctx →
      (Numbering.natRepr k).length ≤ ctx.numberLength →
      Numbering.WFExisting ctx (pfxOf b.type) ex →
      Numbering.expectedSeq (pfxOf b.type) ex = some k →
      (pfxOf b.type ++ ctx.year ++
        Numbering.padded ctx.numberLength (Numbering.natRepr k)) ∉ ex) :=
  ⟨fun h => save_keeps ctx pfxOf ex b h,
   fun hnum hopen hbt hk => save_assigns ctx pfxOf ex b k hnum hopen hbt hk,
   fun h => close_refuses ctx pfxOf ex b h,
   fun hopen hbt hk => close_assigns ctx pfxOf ex b k hopen hbt hk,
   fun hyr hfit hwf hk => newNumber_not_mem ctx (pfxOf b.type) ex k hyr hfit hwf hk⟩

/-- Witness for C4: closing a fresh open invoice against the stored
number `I2026000001` yields `I2026000002`, which is not among the
stored numbers. -/
theorem C4_number_assignment_witness :
    Numbering.close ctx0 pfxOf0 exC4 freshBillC4 =
      .ok { freshBillC4 with
            is_open := false
            is_sent := false
            number := ['I', '2', '0', '2', '6', '0', '0', '0', '0', '0', '2'] } ∧
    (['I', '2', '0', '2', '6', '0', '0', '0', '0', '0', '2'] : List Char) ∉ exC4 := by
  have T := C4_number_assignment ctx0 pfxOf0 exC4 freshBillC4 2
  constructor
  · have h := T.2.2.2.1 rfl (by decide) (by decide)
    rw [h]
    rfl
  · have h := T.2.2.2.2
      ⟨by decide, by decide, '2', ['0', '2', '6'], by decide, by decide⟩
      (by decide)
      (by
        intro s hs hm
        have hs2 : s = ['I', '2', '0', '2', '6', '0', '0', '0', '0', '0', '1'] := by
          simpa [exC4] using hs
        subst hs2
        exact ⟨['2', '0', '2', '6'], ['0', '0', '0', '0', '0', '1'],
          by decide, by decide, by decide, by decide, by decide, by decide,
          by decide⟩)
      (by decide)
    exact h
